import Mathlib

/-!
Verification of the invoice reconciliation engine of `maquiprime_facturas`
(`src/processor.py`) against its natural-language specification.

The engine is shallowly embedded: the workbook is a list of sheets holding
cell values and per-row highlight fills, one parsed invoice document is an
`InvoiceRow`, and the body of `Processor.run` (processor.py lines 118-244)
becomes a fold of `processDoc` over the list of parse outcomes produced by
the directory scan, followed by the duplicate pass (`_apply_duplicates`)
and the sheet sort (`_sort_all_month_sheets`).

Python `str` operations (`strip`, `upper`, `lower`, `replace`, `endswith`)
are modelled by structural functions over the character list of the string
(ASCII case mapping; all identifiers handled by the program are ASCII).
`decimal.Decimal` is modelled by `ℚ` (exact arithmetic), `datetime` by a
six-field record ordered lexicographically, and
`datetime.fromisoformat` by a parser for the ISO-8601 extended forms the
system produces (`YYYY-MM-DD`, optionally followed by `T` or a space and
`HH:MM:SS`).
-/

namespace MaquiPrime

/-- Model of `RFC_RECEPTOR_ESPERADO` (processor.py line 14). -/
def RFC_RECEPTOR_ESPERADO : String := "MES2301274X9"

/-- Model of `TARGET_YEAR` (processor.py line 15). -/
def TARGET_YEAR : Nat := 2026

/-- Model of `MESES_INV` (processor.py line 32): month number to capitalized
Spanish month name, as built from the `MESES` table of lines 17-30. -/
def mesesInv : Nat → String
  | 1 => "Enero"
  | 2 => "Febrero"
  | 3 => "Marzo"
  | 4 => "Abril"
  | 5 => "Mayo"
  | 6 => "Junio"
  | 7 => "Julio"
  | 8 => "Agosto"
  | 9 => "Septiembre"
  | 10 => "Octubre"
  | 11 => "Noviembre"
  | 12 => "Diciembre"
  | _ => ""

/-- Model of `COLUMNS` (processor.py lines 37-50). -/
def COLUMNS : List String :=
  ["Fecha", "Proveedor", "Proveedor RFC", "Folio Factura", "UUID", "Concepto",
   "Importe", "IVA", "Otros Impuestos", "Total", "Comentarios", "Empleado"]

/-! ### Python string primitives, modelled structurally -/

/-- ASCII uppercase of one character (model of the case mapping Python
`str.upper` applies to the ASCII identifiers this program handles). -/
def asciiUpper (c : Char) : Char :=
  if 97 ≤ c.toNat ∧ c.toNat ≤ 122 then Char.ofNat (c.toNat - 32) else c

/-- ASCII lowercase of one character (model of Python `str.lower`). -/
def asciiLower (c : Char) : Char :=
  if 65 ≤ c.toNat ∧ c.toNat ≤ 90 then Char.ofNat (c.toNat + 32) else c

/-- Python `str.strip()`: drop leading and trailing whitespace. -/
def stripList (cs : List Char) : List Char :=
  ((cs.dropWhile (·.isWhitespace)).reverse.dropWhile (·.isWhitespace)).reverse

/-- Python `str.lower()`. -/
def pyLower (s : String) : String := (s.data.map asciiLower).asString

/-- Python `s.endswith(suff)`. -/
def pyEndsWith (s suff : String) : Bool :=
  decide ((s.data.reverse.take suff.data.length).reverse = suff.data)

/-- Model of `Processor._normalize_uuid` (processor.py lines 110-112):
`str(value or "").strip().upper().replace("{", "").replace("}", "")`.
Replacing a brace by the empty string removes every occurrence, hence the
filter. -/
def normalizeUuid (s : String) : String :=
  (((stripList s.data).map asciiUpper).filter (fun c => ¬ (c = '{' ∨ c = '}'))).asString

/-! ### Datetimes -/

/-- Model of a Python `datetime` value: the six calendar fields. -/
structure DateTime where
  year : Nat
  month : Nat
  day : Nat
  hour : Nat
  minute : Nat
  second : Nat
deriving DecidableEq, Repr

/-- Python `datetime.max` (used as the sort sentinel in
`_sort_all_month_sheets`, processor.py line 329). -/
def DateTime.maxVal : DateTime := ⟨9999, 12, 31, 23, 59, 59⟩

/-- The six fields as a lexicographically ordered tuple; Python compares
datetimes field by field in exactly this order. -/
def DateTime.lexKey (d : DateTime) :
    Lex (Nat × Lex (Nat × Lex (Nat × Lex (Nat × Lex (Nat × Nat))))) :=
  toLex (d.year, toLex (d.month, toLex (d.day, toLex (d.hour, toLex (d.minute, d.second)))))

/-- Two-digit zero padding, as in Python `str(date)` rendering. -/
def pad2 (n : Nat) : String := if n < 10 then "0" ++ toString n else toString n

/-- Four-digit zero padding for years. -/
def pad4 (n : Nat) : String :=
  if n < 10 then "000" ++ toString n
  else if n < 100 then "00" ++ toString n
  else if n < 1000 then "0" ++ toString n
  else toString n

/-- Python `str(d.date())`: `YYYY-MM-DD`. -/
def DateTime.dateStr (d : DateTime) : String :=
  pad4 d.year ++ "-" ++ pad2 d.month ++ "-" ++ pad2 d.day

/-- Python `str(datetime)`: `YYYY-MM-DD HH:MM:SS`. -/
def DateTime.isoStr (d : DateTime) : String :=
  d.dateStr ++ " " ++ pad2 d.hour ++ ":" ++ pad2 d.minute ++ ":" ++ pad2 d.second

/-- Numeric value of a decimal digit character. -/
def digitVal (c : Char) : Nat := c.toNat - 48

/-- Model of `datetime.fromisoformat`, modelled for the ISO-8601 extended forms the
system produces: `YYYY-MM-DD`, optionally followed by `T` or a space and
`HH:MM:SS`; any other shape fails (raises `ValueError` in Python, `none`
here). Field ranges are validated as Python does (days simplified to 1-31). -/
def parseIso (s : String) : Option DateTime :=
  let mk : Nat → Nat → Nat → Nat → Nat → Nat → Option DateTime := fun y mo d h mi se =>
    if 1 ≤ mo ∧ mo ≤ 12 ∧ 1 ≤ d ∧ d ≤ 31 ∧ h ≤ 23 ∧ mi ≤ 59 ∧ se ≤ 59 then
      some ⟨y, mo, d, h, mi, se⟩
    else none
  match s.data with
  | [y1, y2, y3, y4, '-', m1, m2, '-', d1, d2] =>
    if [y1, y2, y3, y4, m1, m2, d1, d2].all Char.isDigit then
      mk (digitVal y1 * 1000 + digitVal y2 * 100 + digitVal y3 * 10 + digitVal y4)
        (digitVal m1 * 10 + digitVal m2) (digitVal d1 * 10 + digitVal d2) 0 0 0
    else none
  | [y1, y2, y3, y4, '-', m1, m2, '-', d1, d2, sep, h1, h2, ':', i1, i2, ':', s1, s2] =>
    if (sep = 'T' ∨ sep = ' ') ∧ [y1, y2, y3, y4, m1, m2, d1, d2, h1, h2, i1, i2, s1, s2].all Char.isDigit then
      mk (digitVal y1 * 1000 + digitVal y2 * 100 + digitVal y3 * 10 + digitVal y4)
        (digitVal m1 * 10 + digitVal m2) (digitVal d1 * 10 + digitVal d2)
        (digitVal h1 * 10 + digitVal h2) (digitVal i1 * 10 + digitVal i2)
        (digitVal s1 * 10 + digitVal s2)
    else none
  | _ => none

/-! ### Cells, rows, sheets, workbook -/

/-- One spreadsheet cell value: a string, a datetime, a number
(`Decimal`/`float`, modelled exactly as `ℚ`), or empty (`None`). -/
inductive CellValue where
  | str (s : String)
  | date (d : DateTime)
  | num (q : ℚ)
  | empty
deriving DecidableEq, Repr

/-- Python truthiness of a cell value (`if raw:` / `value or ""`). -/
def cellTruthy : CellValue → Bool
  | .str s => s ≠ ""
  | .num q => q ≠ 0
  | .date _ => true
  | .empty => false

/-- Python `str(value)` on a cell value. -/
def cellToStr : CellValue → String
  | .str s => s
  | .num q => toString q
  | .date d => d.isoStr
  | .empty => "None"

/-- Model of `str(value or "")`: the empty string on falsy values, `str(value)`
otherwise. -/
def pyStrOr (v : CellValue) : String := if cellTruthy v then cellToStr v else ""

/-- The per-row highlight fill: none, `YELLOW` (month mismatch, fill
`FFF59D`) or `RED` (duplicate, fill `EF9A9A`) (processor.py lines 34-35).
`_fill_row` paints all twelve cells of a row with one fill and
`_detect_row_highlight` reads it back from the first cell, so the fill is
modelled per row. -/
inductive Highlight where
  | none
  | yellow
  | red
deriving DecidableEq, Repr

/-- One data row: its twelve cell values and its highlight fill. -/
structure Row where
  cells : List CellValue
  fill : Highlight
deriving DecidableEq, Repr

/-- One worksheet: title, header row (row 1), data rows (rows 2..) and the
auto-filter flag set by `_ensure_headers`. Data row index `i` (0-based)
corresponds to spreadsheet row `i + 2`. -/
structure Sheet where
  name : String
  header : List CellValue
  data : List Row
  autoFilter : Bool
deriving DecidableEq, Repr

/-- The open workbook: its sheets in order. -/
structure Workbook where
  sheets : List Sheet
deriving DecidableEq, Repr

/-- Model of `COLUMNS` as header cell values. -/
def columnsCells : List CellValue := COLUMNS.map CellValue.str

/-- Model of `ws.cell(1, i+1).value for i in range(len(COLUMNS))`: the first twelve
header cells, absent cells reading as `None`. -/
def sheetHeaderCells (s : Sheet) : List CellValue :=
  (List.range COLUMNS.length).map (fun i => s.header.getD i CellValue.empty)

def sheetNames (wb : Workbook) : List String := wb.sheets.map (·.name)

/-- Model of `wb[name]`: the sheet with the given title (sheet titles are unique in
an openpyxl workbook; the model reads the first match). -/
def sheetAt (wb : Workbook) (name : String) : Option Sheet :=
  wb.sheets.find? (fun s => s.name == name)

/-- Apply `f` to the sheet with the given title. -/
def modifySheetList : List Sheet → String → (Sheet → Sheet) → List Sheet
  | [], _, _ => []
  | s :: rest, n, f => if s.name = n then f s :: rest else s :: modifySheetList rest n f

def modifySheet (wb : Workbook) (name : String) (f : Sheet → Sheet) : Workbook :=
  ⟨modifySheetList wb.sheets name f⟩

/-- Model of `wb.create_sheet(name)`: a fresh empty sheet appended to the book. -/
def createSheet (wb : Workbook) (name : String) : Workbook :=
  ⟨wb.sheets ++ [⟨name, [], [], false⟩]⟩

/-- Model of `Processor._ensure_headers` (processor.py lines 294-300): write the
twelve column titles when cell (1,1) is not `"Fecha"`, and always set the
auto-filter over the header row. -/
def ensureHeadersWs (s : Sheet) : Sheet :=
  let s1 := if s.header.getD 0 CellValue.empty ≠ CellValue.str "Fecha" then
    { s with header := columnsCells } else s
  { s1 with autoFilter := true }

/-- Overwrite the fill of data row `i` (0-based). -/
def setFillAt : List Row → Nat → Highlight → List Row
  | [], _, _ => []
  | r :: rs, 0, hl => { r with fill := hl } :: rs
  | r :: rs, n + 1, hl => r :: setFillAt rs n hl

/-- Model of `Processor._fill_row` (processor.py lines 290-292) on spreadsheet row
`rowNum` of the named sheet (data index `rowNum - 2`). -/
def fillRowWb (wb : Workbook) (name : String) (rowNum : Nat) (hl : Highlight) : Workbook :=
  modifySheet wb name (fun s => { s with data := setFillAt s.data (rowNum - 2) hl })

/-! ### Parsed invoices and the directory scan -/

/-- Model of `InvoiceRow` (processor.py lines 86-101): one parsed invoice document.
Monetary amounts are `Decimal` values, modelled exactly as `ℚ`. -/
structure InvoiceRow where
  fecha : DateTime
  proveedor : String
  proveedor_rfc : String
  folio_factura : String
  uuid : String
  concepto : String
  importe : ℚ
  iva : ℚ
  otros_impuestos : ℚ
  total : ℚ
  comentarios : String
  empleado : String
  source_month : String
  source_file : String
deriving DecidableEq, Repr

/-- The outcome of `_parse_invoice` on one XML file found by the
month → employee → file scan of `run` (processor.py lines 133-147):
either an exception (caught at line 148) with its message, or a parsed
`InvoiceRow`.  The list of outcomes, in scan order, is the input of the
`run` model. -/
inductive Doc where
  | parseFail (fname msg : String)
  | parsed (fname : String) (row : InvoiceRow)
deriving DecidableEq, Repr

/-- The twelve cell values appended for an accepted invoice
(processor.py lines 187-202); `float(...)` conversions are modelled as the
exact values. -/
def rowCells (row : InvoiceRow) : List CellValue :=
  [.date row.fecha, .str row.proveedor, .str row.proveedor_rfc, .str row.folio_factura,
   .str row.uuid, .str row.concepto, .num row.importe, .num row.iva,
   .num row.otros_impuestos, .num row.total, .str row.comentarios, .str row.empleado]

/-! ### The ledger UUID index -/

/-- Model of `result.setdefault(key, []).append(pos)` on an insertion-ordered
mapping from normalized UUID to its (sheet, row) locations. -/
def addPos (m : List (String × List (String × Nat))) (k : String) (p : String × Nat) :
    List (String × List (String × Nat)) :=
  match m with
  | [] => [(k, [p])]
  | (k', ps) :: rest => if k' = k then (k', ps ++ [p]) :: rest else (k', ps) :: addPos rest k p

/-- Model of `dict.get(key, [])` on the position index. -/
def lookupPositions (m : List (String × List (String × Nat))) (k : String) :
    List (String × Nat) :=
  ((m.find? (fun kv => kv.1 == k)).map (·.2)).getD []

/-- Lines 262-266 of `_collect_uuid_positions`: the normalized UUID key a
data row contributes, if any (the cell in column 5 must be truthy and its
normalization non-empty). -/
def rowUuidKey (r : Row) : Option String :=
  let raw := r.cells.getD 4 CellValue.empty
  if cellTruthy raw then
    let key := normalizeUuid (cellToStr raw)
    if key ≠ "" then some key else none
  else none

/-- The body of `_collect_uuid_positions` for one sheet (processor.py
lines 254-266): sheets with no data row (`max_row < 2`) or whose first
twelve header cells differ from `COLUMNS` contribute nothing. -/
def collectSheetInto (acc : List (String × List (String × Nat))) (s : Sheet) :
    List (String × List (String × Nat)) :=
  if s.data.isEmpty then acc
  else if sheetHeaderCells s ≠ columnsCells then acc
  else s.data.enum.foldl
    (fun a ir =>
      match rowUuidKey ir.2 with
      | some key => addPos a key (s.name, ir.1 + 2)
      | none => a)
    acc

/-- Model of `Processor._collect_uuid_positions` (processor.py lines 250-267). -/
def collectUuidPositions (wb : Workbook) : List (String × List (String × Nat)) :=
  wb.sheets.foldl collectSheetInto []

/-! ### The per-document step of `run` -/

/-- The mutable state of one `run` invocation: the open workbook, the
`existing_uuid_set`, the `new_uuid_positions` index, the three counters
and the status lines emitted through the logger callback. -/
structure RunState where
  wb : Workbook
  existingSet : List String
  newPositions : List (String × List (String × Nat))
  inserted : Nat
  warnings : Nat
  errors : Nat
  log : List String
deriving DecidableEq, Repr

/-- Model of `f"{MESES_INV[row.fecha.month]} {TARGET_YEAR}"` (line 177): the
destination sheet is named after the invoice's own issue month. -/
def targetSheetName (row : InvoiceRow) : String :=
  mesesInv row.fecha.month ++ " " ++ toString TARGET_YEAR

/-- Lines 178-183: create the destination sheet if missing, writing its
header, then re-ensure headers on the fetched sheet.  These lines run
regardless of `dry_run`. -/
def ensureTarget (wb : Workbook) (t : String) : Workbook :=
  let wb1 := if t ∈ sheetNames wb then wb else modifySheet (createSheet wb t) t ensureHeadersWs
  modifySheet wb1 t ensureHeadersWs

/-- Lines 186-221, the `if not dry_run` insertion block: append the row,
compute its spreadsheet row number (`ws.max_row`), paint it `YELLOW` with
one warning when the folder month differs (case-insensitively) from the
issue month, and record the UUID in `new_uuid_positions` and
`existing_uuid_set`. -/
def insertStep (st : RunState) (fname : String) (row : InvoiceRow) : RunState :=
  let uuidKey := normalizeUuid row.uuid
  let targetSheet := targetSheetName row
  let wb2 := ensureTarget st.wb targetSheet
  let wb3 := modifySheet wb2 targetSheet
    (fun s => { s with data := s.data ++ [⟨rowCells row, Highlight.none⟩] })
  let insertedRow := ((sheetAt wb3 targetSheet).map (fun s => s.data.length + 1)).getD 0
  let mismatch := pyLower row.source_month ≠ pyLower (mesesInv row.fecha.month)
  let wb4 := if mismatch then fillRowWb wb3 targetSheet insertedRow Highlight.yellow else wb3
  { st with
    wb := wb4
    inserted := st.inserted + 1
    warnings := st.warnings + (if mismatch then 1 else 0)
    log := st.log ++ (if mismatch then
      ["ADVERTENCIA mes distinto: " ++ fname ++ " en carpeta '" ++ row.source_month ++
       "' pero fecha " ++ row.fecha.dateStr] else [])
    newPositions := addPos st.newPositions uuidKey (targetSheet, insertedRow)
    existingSet := st.existingSet ++ [uuidKey] }

/-- Lines 145-221 of `Processor.run`: handle one scanned XML file.
A parse exception, an issue year outside `TARGET_YEAR` or an empty UUID is
logged and counted as one error; a UUID already in `existing_uuid_set` is
logged as an omission and skipped; otherwise the destination sheet named
after the invoice's own issue month is created/normalized (this happens
even when `dry_run` is set), and, unless `dry_run`, the insertion block
`insertStep` runs. -/
def processDoc (dryRun : Bool) (st : RunState) (d : Doc) : RunState :=
  match d with
  | .parseFail fname msg =>
    { st with errors := st.errors + 1,
              log := st.log ++ ["ERROR parseando " ++ fname ++ ": " ++ msg] }
  | .parsed fname row =>
    if row.fecha.year ≠ TARGET_YEAR then
      { st with errors := st.errors + 1,
                log := st.log ++ ["ERROR fecha fuera de " ++ toString TARGET_YEAR ++ " (" ++
                  row.fecha.dateStr ++ ") en " ++ fname] }
    else if row.uuid = "" then
      { st with errors := st.errors + 1,
                log := st.log ++ ["ERROR UUID vacío en " ++ fname] }
    else if normalizeUuid row.uuid ∈ st.existingSet then
      { st with log := st.log ++ ["OMITIDO UUID ya existente: " ++ row.uuid ++ " (" ++ fname ++ ")"] }
    else if dryRun then { st with wb := ensureTarget st.wb (targetSheetName row) }
    else insertStep st fname row

/-! ### Duplicate reconciliation pass -/

/-- The inner loop of `_apply_duplicates` (processor.py lines 281-283):
paint every listed location `RED`, guarding on the sheet name. -/
def fillPositions (wb : Workbook) (ps : List (String × Nat)) : Workbook :=
  ps.foldl
    (fun w p => if p.1 ∈ sheetNames w then fillRowWb w p.1 p.2 Highlight.red else w) wb

/-- Model of `Processor._apply_duplicates` (processor.py lines 269-284): for every
UUID with at least one new position this run, merge old and new positions;
when more than one location shares the UUID, count the group once and
repaint every location red.  Returns the painted workbook and `dup_count`. -/
def applyDuplicates (wb : Workbook)
    (existing newPos : List (String × List (String × Nat))) : Workbook × Nat :=
  newPos.foldl
    (fun acc kv =>
      let allPositions := lookupPositions existing kv.1 ++ kv.2
      if allPositions.length > 1 then (fillPositions acc.1 allPositions, acc.2 + 1)
      else acc)
    (wb, 0)

/-! ### Sheet sorter -/

/-- Model of `Processor._coerce_datetime` (processor.py lines 348-362) without its
logging: a datetime cell is returned as is, an empty cell or empty string
yields `none` (logged and sorted last by the caller), and any other value
is given to `fromisoformat`, `none` on failure. -/
def coerceDatetime : CellValue → Option DateTime
  | .date d => some d
  | .empty => Option.none
  | .str s => if s = "" then Option.none else parseIso s
  | .num q => parseIso (toString q)

/-- The employee component of the sort key (line 326):
`str(values[11] or "").lower()`. -/
def empKey (cells : List CellValue) : String := pyLower (pyStrOr (cells.getD 11 CellValue.empty))

/-- The date component of the sort key (lines 327-329): the coerced
datetime, or `datetime.max` when coercion fails. -/
def rowFecha (cells : List CellValue) : DateTime :=
  (coerceDatetime (cells.getD 0 CellValue.empty)).getD DateTime.maxVal

/-- The two-part sort key (employee lowercased, issue date), compared the
way Python compares the `(empleado, fecha_dt)` tuples of line 332. -/
def rowSortKey (r : Row) :
    Lex (String × Lex (Nat × Lex (Nat × Lex (Nat × Lex (Nat × Lex (Nat × Nat)))))) :=
  toLex (empKey r.cells, (rowFecha r.cells).lexKey)

/-- The comparator of the stable sort of line 332. -/
def rowLE (a b : Row) : Bool := decide (rowSortKey a ≤ rowSortKey b)

/-- The per-sheet body of `_sort_all_month_sheets` (processor.py
lines 314-346): a sheet qualifies when its name ends with the target year
and it has at least two data rows (`max_row ≥ 3`); its rows are read with
their detected highlight, stably sorted by (employee, date) and rewritten
with the same values and highlights.  Python's `list.sort` is a stable
sort, modelled by `List.mergeSort`. -/
def sortSheetRows (s : Sheet) : Sheet :=
  if pyEndsWith s.name (" " ++ toString TARGET_YEAR) = false then s
  else if s.data.length < 2 then s
  else { s with data := s.data.mergeSort rowLE }

/-- Model of `Processor._sort_all_month_sheets` (processor.py lines 313-346). -/
def sortAllMonthSheets (wb : Workbook) : Workbook :=
  ⟨wb.sheets.map sortSheetRows⟩

/-! ### The entry point -/

/-- The dictionary returned by `Processor.run` (processor.py
lines 239-244): exactly four entries. -/
structure RunResult where
  inserted : Nat
  warnings : Nat
  errors : Nat
  dry_run : Bool
deriving DecidableEq, Repr

/-- The observable outcome of one invocation: the returned result record,
the final in-memory workbook, whether `wb.save` was executed, and the
status lines logged. -/
structure RunOutput where
  result : RunResult
  wb : Workbook
  saved : Bool
  log : List String
deriving DecidableEq, Repr

/-- The state at the top of `run` (processor.py lines 119-130):
`existing_uuid_set = set(existing_uuid_positions.keys())`, empty new-run
index and zeroed counters. -/
def initState (wb0 : Workbook) : RunState :=
  { wb := wb0, existingSet := (collectUuidPositions wb0).map (·.1),
    newPositions := [], inserted := 0, warnings := 0, errors := 0, log := [] }

/-- Model of `Processor.run` (processor.py lines 118-244) over the parse outcomes
of the directory scan, in scan order: fold `processDoc` over the
documents; then, unless `dry_run`, apply the duplicate pass (adding
`dup_count` to `warnings`), sort the month sheets and save.  The `try`
around the sort (lines 231-235) cannot fire in the model because the
modelled sort is total. -/
def run (wb0 : Workbook) (docs : List Doc) (dryRun : Bool) : RunOutput :=
  let existing := collectUuidPositions wb0
  let st := docs.foldl (processDoc dryRun) (initState wb0)
  if dryRun then
    { result := { inserted := st.inserted, warnings := st.warnings, errors := st.errors,
                  dry_run := true },
      wb := st.wb, saved := false, log := st.log }
  else
    let dup := applyDuplicates st.wb existing st.newPositions
    { result := { inserted := st.inserted, warnings := st.warnings + dup.2, errors := st.errors,
                  dry_run := false },
      wb := sortAllMonthSheets dup.1, saved := true,
      log := st.log ++ (if dup.2 ≠ 0 then
        ["ADVERTENCIA UUIDs duplicados detectados y marcados en rojo: " ++ toString dup.2]
        else []) }

/-- The state after the document loop of `run` (the fold of lines
133-221). -/
def runFoldState (wb0 : Workbook) (docs : List Doc) (dryRun : Bool) : RunState :=
  docs.foldl (processDoc dryRun) (initState wb0)

/-- Model of `dup_count` as computed at line 225 of a non-simulation run: the
number of duplicate UUID groups found. -/
def runDupCount (wb0 : Workbook) (docs : List Doc) : Nat :=
  (applyDuplicates (runFoldState wb0 docs false).wb (collectUuidPositions wb0)
    (runFoldState wb0 docs false).newPositions).2

/-! ### Derived observations -/

/-- The error log line a failing document produces, if it fails: a parse
exception (line 150), an issue year outside the target year (line 156) or
an empty UUID (line 164). -/
def docFailMsg : Doc → Option String
  | .parseFail fname msg => some ("ERROR parseando " ++ fname ++ ": " ++ msg)
  | .parsed fname row =>
    if row.fecha.year ≠ TARGET_YEAR then
      some ("ERROR fecha fuera de " ++ toString TARGET_YEAR ++ " (" ++
        row.fecha.dateStr ++ ") en " ++ fname)
    else if row.uuid = "" then some ("ERROR UUID vacío en " ++ fname)
    else none

/-- Whether a document fails parsing or validation. -/
def docFails (d : Doc) : Bool := (docFailMsg d).isSome

/-- The highlight fill found at a (sheet name, spreadsheet row) location,
`none` when there is no such row. -/
def highlightAt (wb : Workbook) (p : String × Nat) : Option Highlight :=
  ((sheetAt wb p.1).bind (fun s => s.data.get? (p.2 - 2))).map (·.fill)

/-- A parsed document whose UUID is a fixed point of normalization —
`_parse_invoice` emits only such UUIDs, since it stores
`_normalize_uuid(tfd.get("UUID", ""))` (line 394). -/
def docNormalized : Doc → Bool
  | .parseFail _ _ => true
  | .parsed _ row => normalizeUuid row.uuid == row.uuid

/-- A sheet whose header is not deceptive: if its first header cell reads
`"Fecha"` (so `_ensure_headers` leaves it untouched), the whole header is
the standard `COLUMNS` row.  Every ledger in the documented format
satisfies this. -/
def sheetWF (s : Sheet) : Bool :=
  decide (s.header.getD 0 CellValue.empty = CellValue.str "Fecha" → s.header = columnsCells)

def wbWF (wb : Workbook) : Prop := ∀ s ∈ wb.sheets, sheetWF s = true

/-- The normalized UUID keys the ledger index `_collect_uuid_positions`
derives from a sheet, as a flat list. -/
def sheetKeys (s : Sheet) : List String :=
  if s.data.isEmpty then []
  else if sheetHeaderCells s ≠ columnsCells then []
  else s.data.filterMap rowUuidKey

def wbKeys (wb : Workbook) : List String := (wb.sheets.map sheetKeys).flatten

/-- The invariant making the duplicate pass vacuous: every UUID recorded
in `new_uuid_positions` has exactly one position, is absent from the
pre-existing index (it would otherwise have been skipped at line 170),
and is in `existing_uuid_set`; and the pre-existing keys are all in
`existing_uuid_set`. -/
def dupInv (existing : List (String × List (String × Nat))) (st : RunState) : Prop :=
  (∀ kv ∈ st.newPositions,
    kv.2.length = 1 ∧ kv.1 ∉ existing.map (·.1) ∧ kv.1 ∈ st.existingSet) ∧
  (∀ k ∈ existing.map (·.1), k ∈ st.existingSet)

/-- The default sheet used for positional indexing. -/
def emptySheet : Sheet := ⟨"", [], [], false⟩

/-- What a simulation run preserves of the open workbook: every
pre-existing sheet keeps its position, its title and its data rows
(headers and filters may still be normalized, and new sheets may be
appended). -/
def dryPreserves (wb wbf : Workbook) : Prop :=
  wb.sheets.length ≤ wbf.sheets.length ∧
  ∀ i, i < wb.sheets.length →
    (wbf.sheets.getD i emptySheet).name = (wb.sheets.getD i emptySheet).name ∧
    (wbf.sheets.getD i emptySheet).data = (wb.sheets.getD i emptySheet).data

/-! ### Concrete instances used to settle the claims on explicit inputs -/

/-- A twelve-cell data row with the given UUID cell and employee. -/
def mkDataRow (u emp : String) : Row :=
  ⟨[.str "2025-01-07", .str "P", .str "R", .str "F", .str u, .str "C",
    .num 1, .num 0, .num 0, .num 1, .str "", .str emp], .none⟩

/-- A ledger holding the same UUID at two pre-existing locations
(rows 2 and 3 of a previous-year month sheet with the standard header). -/
def wbDupPair : Workbook :=
  ⟨[⟨"Enero 2025", columnsCells, [mkDataRow "DUP-1" "Ana", mkDataRow "DUP-1" "Bob"], true⟩]⟩

/-- A ledger holding the UUID `OLD-9` at one pre-existing location. -/
def wbOneOld : Workbook :=
  ⟨[⟨"Enero 2025", columnsCells, [mkDataRow "OLD-9" "Ana"], true⟩]⟩

/-- A workbook with a single unrelated empty sheet (a fresh openpyxl book). -/
def wbHoja : Workbook := ⟨[⟨"Hoja1", [], [], false⟩]⟩

/-- An invoice issued 2026-02-10 but filed under the `Enero` folder. -/
def rowFebEnero : InvoiceRow :=
  { fecha := ⟨2026, 2, 10, 0, 0, 0⟩, proveedor := "PROVEEDOR TEST",
    proveedor_rfc := "OEMF830516FD0", folio_factura := "A-1", uuid := "AAA-1",
    concepto := "GASOLINA", importe := 100, iva := 16, otros_impuestos := 0,
    total := 116, comentarios := "", empleado := "David",
    source_month := "enero", source_file := "f.xml" }

/-- An incoming document carrying the already-recorded UUID `OLD-9`. -/
def docOld : Doc :=
  .parsed "g.xml" { rowFebEnero with uuid := "OLD-9", source_month := "febrero" }

/-- The document list of the C3 counterexample: one accepted
month-mismatch insertion and one parse failure. -/
def docsMixed : List Doc :=
  [.parsed "f.xml" rowFebEnero, .parseFail "b.xml" "XMLSyntaxError"]

/-- A ledger whose sheet `Febrero 2026` has a deceptive header: the
first cell reads `Fecha` but the second is not `Proveedor`. -/
def wbBadHeader : Workbook :=
  ⟨[⟨"Febrero 2026", [.str "Fecha", .str "X"] ++ (COLUMNS.drop 2).map CellValue.str, [], true⟩]⟩

/-- A well-formed document for the bad-header ledger: February 2026,
filed under `Febrero`, normalized UUID. -/
def docFeb : Doc :=
  .parsed "f.xml" { rowFebEnero with source_month := "febrero", uuid := "UX-1" }

/-- A ledger row recorded with braces and upper case, as in the
normalization scenario. -/
def wbBraces : Workbook :=
  ⟨[⟨"Enero 2026", columnsCells, [mkDataRow "{ABC-123}" "David"], true⟩]⟩

/-- A qualifying month sheet with two unsorted data rows, one of them
with an unparseable date cell. -/
def sheetTwoRows : Sheet :=
  ⟨"Enero 2026", columnsCells,
   [⟨[.str "no es fecha", .str "P", .str "R", .str "F", .str "B-2", .str "C",
      .num 1, .num 0, .num 0, .num 1, .str "", .str "Zoe"], .yellow⟩,
    ⟨[.date ⟨2026, 1, 3, 0, 0, 0⟩, .str "P", .str "R", .str "F", .str "A-1", .str "C",
      .num 1, .num 0, .num 0, .num 1, .str "", .str "Ana"], .none⟩], true⟩

/-! ### Tax aggregation in the invoice parser -/

/-- One `cfdi:Traslado` or `cfdi:Retencion` tax line (processor.py
lines 407-418): its `Impuesto` tax code and its `Importe` amount. -/
structure TaxLine where
  impuesto : String
  importe : ℚ
deriving DecidableEq, Repr

/-- The loop body shared by the two tax loops of `_parse_invoice`
(lines 407-418): VAT code `"002"` accumulates into `iva`, every other
code into `otros`. -/
def taxStep (acc : ℚ × ℚ) (t : TaxLine) : ℚ × ℚ :=
  if t.impuesto = "002" then (acc.1 + t.importe, acc.2) else (acc.1, acc.2 + t.importe)

/-- The tax aggregation of `_parse_invoice` (processor.py lines 403-418):
scan the transferred lines, then the withheld lines, starting from
`(Decimal("0"), Decimal("0"))`; returns `(iva, otros)`. -/
def aggregateTaxes (traslados retenciones : List TaxLine) : ℚ × ℚ :=
  retenciones.foldl taxStep (traslados.foldl taxStep (0, 0))

/-! ## Basic facts about the per-document step -/

theorem processDoc_fail {d : Doc} {line : String} (b : Bool) (st : RunState)
    (h : docFailMsg d = some line) :
    processDoc b st d = { st with errors := st.errors + 1, log := st.log ++ [line] } := by
  cases d with
  | parseFail f m =>
    simp only [docFailMsg, Option.some.injEq] at h
    subst h; rfl
  | parsed f row =>
    by_cases h1 : row.fecha.year ≠ TARGET_YEAR
    · simp only [docFailMsg, if_pos h1, Option.some.injEq] at h
      subst h; simp [processDoc, h1]
    · by_cases h2 : row.uuid = ""
      · simp only [docFailMsg, if_neg h1, if_pos h2, Option.some.injEq] at h
        subst h; simp [processDoc, h1, h2]
      · simp [docFailMsg, h1, h2] at h

theorem processDoc_skip (b : Bool) (st : RunState) (f : String) (row : InvoiceRow)
    (h1 : row.fecha.year = TARGET_YEAR) (h2 : row.uuid ≠ "")
    (h3 : normalizeUuid row.uuid ∈ st.existingSet) :
    processDoc b st (.parsed f row) =
      { st with log := st.log ++
          ["OMITIDO UUID ya existente: " ++ row.uuid ++ " (" ++ f ++ ")"] } := by
  simp [processDoc, h1, h2, h3]

theorem processDoc_insert (st : RunState) (f : String) (row : InvoiceRow)
    (h1 : row.fecha.year = TARGET_YEAR) (h2 : row.uuid ≠ "")
    (h3 : normalizeUuid row.uuid ∉ st.existingSet) :
    processDoc false st (.parsed f row) = insertStep st f row := by
  simp [processDoc, h1, h2, h3]

theorem processDoc_dry_pass (st : RunState) (f : String) (row : InvoiceRow)
    (h1 : row.fecha.year = TARGET_YEAR) (h2 : row.uuid ≠ "")
    (h3 : normalizeUuid row.uuid ∉ st.existingSet) :
    processDoc true st (.parsed f row) = { st with wb := ensureTarget st.wb (targetSheetName row) } := by
  simp [processDoc, h1, h2, h3]

theorem processDoc_errors (b : Bool) (st : RunState) (d : Doc) :
    (processDoc b st d).errors = st.errors + (if docFails d then 1 else 0) := by
  cases d with
  | parseFail f m => simp [processDoc, docFails, docFailMsg]
  | parsed f row =>
    simp only [processDoc, docFails, docFailMsg]
    split_ifs <;> simp_all [insertStep]

theorem foldl_errors (b : Bool) (docs : List Doc) : ∀ st : RunState,
    (docs.foldl (processDoc b) st).errors = st.errors + docs.countP docFails := by
  induction docs with
  | nil => intro st; simp
  | cons d ds ih =>
    intro st
    rw [List.foldl_cons, List.countP_cons, ih, processDoc_errors]
    split <;> omega

theorem processDoc_dry_counters (st : RunState) (d : Doc) :
    (processDoc true st d).inserted = st.inserted ∧ (processDoc true st d).warnings = st.warnings := by
  cases d with
  | parseFail f m => simp [processDoc]
  | parsed f row =>
    simp only [processDoc]
    split_ifs <;> simp

theorem foldl_dry_counters (docs : List Doc) : ∀ st : RunState,
    (docs.foldl (processDoc true) st).inserted = st.inserted ∧
    (docs.foldl (processDoc true) st).warnings = st.warnings := by
  induction docs with
  | nil => intro st; simp
  | cons d ds ih =>
    intro st
    rw [List.foldl_cons]
    rcases ih (processDoc true st d) with ⟨hi, hw⟩
    rcases processDoc_dry_counters st d with ⟨hi', hw'⟩
    exact ⟨hi.trans hi', hw.trans hw'⟩

theorem run_result_def (wb0 : Workbook) (docs : List Doc) (b : Bool) :
    (run wb0 docs b).result =
      { inserted := (runFoldState wb0 docs b).inserted,
        warnings := (runFoldState wb0 docs b).warnings + (if b then 0 else runDupCount wb0 docs),
        errors := (runFoldState wb0 docs b).errors,
        dry_run := b } := by
  cases b <;> rfl

/-! ## C3 — shape of the returned result record -/

/-- C3 (counterexample): the claim says the entry point returns a record
containing, among its counts, the count of duplicate UUID groups found.
On the concrete run below the duplicate-group count is 0 while every
count field of the returned record is 1: no component of the record
carries the duplicate-group count. -/
theorem claim_C3_counterexample :
    ¬ ((run wbHoja docsMixed false).result.inserted = runDupCount wbHoja docsMixed ∨
       (run wbHoja docsMixed false).result.warnings = runDupCount wbHoja docsMixed ∨
       (run wbHoja docsMixed false).result.errors = runDupCount wbHoja docsMixed) := by
  decide

/-- C3 (amended): the entry point returns a record with the inserted
count, a warnings count, the errors count and the simulation flag echoed
back; the errors count is the number of per-document parse/validation
failures, and the number of duplicate UUID groups found is not a separate
component — it is added into the warnings count of a non-simulation run. -/
theorem claim_C3_result_record (wb0 : Workbook) (docs : List Doc) (b : Bool) :
    (run wb0 docs b).result.dry_run = b ∧
    (run wb0 docs b).result.inserted = (runFoldState wb0 docs b).inserted ∧
    (run wb0 docs b).result.errors = docs.countP docFails ∧
    (run wb0 docs b).result.warnings =
      (runFoldState wb0 docs b).warnings + (if b then 0 else runDupCount wb0 docs) := by
  rw [run_result_def]
  refine ⟨rfl, rfl, ?_, rfl⟩
  simpa [runFoldState, initState] using foldl_errors b docs (initState wb0)

/-! ## C5 — skip of already-indexed UUIDs -/

/-- C5: a scanned document whose normalized UUID is already in the
ledger's UUID index is skipped entirely: the state is unchanged except
for one logged omission line — no row is inserted, no sheet is touched,
no error or warning is counted. -/
theorem claim_C5_skip_existing (b : Bool) (st : RunState) (f : String) (row : InvoiceRow)
    (h1 : row.fecha.year = TARGET_YEAR) (h2 : row.uuid ≠ "")
    (h3 : normalizeUuid row.uuid ∈ st.existingSet) :
    processDoc b st (.parsed f row) =
      { st with log := st.log ++
          ["OMITIDO UUID ya existente: " ++ row.uuid ++ " (" ++ f ++ ")"] } :=
  processDoc_skip b st f row h1 h2 h3

/-- C5 (witness): a ledger row holding UUID `"{ABC-123}"` (braces, mixed
case) and an incoming document with UUID `"abc-123"` (which the parser
stores normalized) are recognized as the same invoice; the document is
skipped with only the omission line logged. -/
theorem claim_C5_skip_existing_witness :
    ((2026 : Nat) = TARGET_YEAR ∧ normalizeUuid "abc-123" ≠ "" ∧
      normalizeUuid (normalizeUuid "abc-123") ∈ (initState wbBraces).existingSet) ∧
    processDoc false (initState wbBraces) (.parsed "in.xml"
        { rowFebEnero with uuid := normalizeUuid "abc-123", fecha := ⟨2026, 1, 13, 14, 13, 12⟩ }) =
      { (initState wbBraces) with log := (initState wbBraces).log ++
          ["OMITIDO UUID ya existente: " ++ normalizeUuid "abc-123" ++ " (" ++ "in.xml" ++ ")"] } :=
  ⟨⟨by decide, by decide, by decide⟩,
   claim_C5_skip_existing false (initState wbBraces) "in.xml"
     { rowFebEnero with uuid := normalizeUuid "abc-123", fecha := ⟨2026, 1, 13, 14, 13, 12⟩ }
     (by decide) (by decide) (by decide)⟩

/-! ## C8 — per-document failures are non-fatal -/

/-- C8: every per-document failure (malformed document, year outside the
target year, empty UUID — the conditions of `docFailMsg`) is non-fatal:
it adds exactly one error and one log line to the state, and the batch
continues with the remaining documents from that state. -/
theorem claim_C8_failures_nonfatal (b : Bool) (st : RunState) (d : Doc) (rest : List Doc)
    {line : String} (h : docFailMsg d = some line) :
    (d :: rest).foldl (processDoc b) st =
      rest.foldl (processDoc b)
        { st with errors := st.errors + 1, log := st.log ++ [line] } := by
  rw [List.foldl_cons, processDoc_fail b st h]

/-- C8 (witness): a malformed document is logged, counted once, and the
next document is still processed. -/
theorem claim_C8_failures_nonfatal_witness :
    docFailMsg (.parseFail "b.xml" "XMLSyntaxError") =
      some "ERROR parseando b.xml: XMLSyntaxError" ∧
    ([Doc.parseFail "b.xml" "XMLSyntaxError", docFeb].foldl (processDoc false) (initState wbHoja) =
      [docFeb].foldl (processDoc false)
        { (initState wbHoja) with
            errors := (initState wbHoja).errors + 1,
            log := (initState wbHoja).log ++ ["ERROR parseando b.xml: XMLSyntaxError"] }) :=
  ⟨by decide,
   claim_C8_failures_nonfatal false (initState wbHoja) (.parseFail "b.xml" "XMLSyntaxError")
     [docFeb] (by decide)⟩

/-! ## C9 — tax aggregation -/

theorem foldl_taxStep (l : List TaxLine) : ∀ acc : ℚ × ℚ,
    (l.foldl taxStep acc).1 =
      acc.1 + ((l.filter (fun t => t.impuesto = "002")).map (·.importe)).sum ∧
    (l.foldl taxStep acc).2 =
      acc.2 + ((l.filter (fun t => ¬ t.impuesto = "002")).map (·.importe)).sum := by
  induction l with
  | nil => intro acc; simp
  | cons t ts ih =>
    intro acc
    by_cases h : t.impuesto = "002" <;>
      simp [taxStep, h, ih, List.filter_cons] <;> ring

/-- C9: the parser aggregates over both transferred and withheld tax
lines: the VAT total is the exact sum of amounts of lines with tax code
`"002"` across both lists, and the other-taxes total is the exact sum of
all remaining amounts, regardless of the transferred/withheld
distinction. -/
theorem claim_C9_tax_aggregation (traslados retenciones : List TaxLine) :
    (aggregateTaxes traslados retenciones).1 =
      (((traslados ++ retenciones).filter (fun t => t.impuesto = "002")).map (·.importe)).sum ∧
    (aggregateTaxes traslados retenciones).2 =
      (((traslados ++ retenciones).filter (fun t => ¬ t.impuesto = "002")).map (·.importe)).sum := by
  unfold aggregateTaxes
  rcases foldl_taxStep traslados (0, 0) with ⟨h1, h2⟩
  rcases foldl_taxStep retenciones (traslados.foldl taxStep (0, 0)) with ⟨h3, h4⟩
  rw [h3, h1, h4, h2]
  constructor <;> simp [List.filter_append]

/-! ## C1 — the duplicate reconciliation pass -/

theorem addPos_fresh (m : List (String × List (String × Nat))) (k : String) (p : String × Nat)
    (h : k ∉ m.map (·.1)) : addPos m k p = m ++ [(k, [p])] := by
  induction m with
  | nil => rfl
  | cons kv rest ih =>
    simp only [List.map_cons, List.mem_cons] at h
    push_neg at h
    simp only [addPos, if_neg (by simpa using h.1.symm), List.cons_append, List.cons.injEq,
      true_and]
    exact ih h.2

theorem lookupPositions_nil (m : List (String × List (String × Nat))) (k : String)
    (h : k ∉ m.map (·.1)) : lookupPositions m k = [] := by
  unfold lookupPositions
  rw [List.find?_eq_none.mpr]
  · rfl
  · intro kv hkv
    simp only [beq_iff_eq]
    intro he
    exact h (by simpa [he] using List.mem_map_of_mem (·.1) hkv)

theorem processDoc_branch (st : RunState) (d : Doc) :
    ((processDoc false st d).wb = st.wb ∧
     (processDoc false st d).newPositions = st.newPositions ∧
     (processDoc false st d).existingSet = st.existingSet) ∨
    (∃ f row, d = .parsed f row ∧ ¬ row.uuid = "" ∧
      normalizeUuid row.uuid ∉ st.existingSet ∧
      processDoc false st d = insertStep st f row) := by
  cases d with
  | parseFail f m => exact Or.inl ⟨rfl, rfl, rfl⟩
  | parsed f row =>
    simp only [processDoc]
    split_ifs with c1 c2 c3 c4
    · exact Or.inl ⟨rfl, rfl, rfl⟩
    · exact Or.inl ⟨rfl, rfl, rfl⟩
    · exact Or.inl ⟨rfl, rfl, rfl⟩
    · exact c4.elim
    · exact Or.inr ⟨f, row, rfl, c2, c3, rfl⟩

theorem dupInv_insert (existing : List (String × List (String × Nat))) (st : RunState)
    (f : String) (row : InvoiceRow)
    (c3 : normalizeUuid row.uuid ∉ st.existingSet) (h : dupInv existing st) :
    dupInv existing (insertStep st f row) := by
  rcases h with ⟨h1, h2⟩
  have hfresh : normalizeUuid row.uuid ∉ st.newPositions.map (·.1) := by
    intro hmem
    rcases List.mem_map.mp hmem with ⟨kv, hkv, hk⟩
    exact c3 (hk ▸ (h1 kv hkv).2.2)
  have hset : (insertStep st f row).existingSet = st.existingSet ++ [normalizeUuid row.uuid] := rfl
  have hnew : ∃ p, (insertStep st f row).newPositions =
      st.newPositions ++ [(normalizeUuid row.uuid, [p])] :=
    ⟨_, addPos_fresh st.newPositions _ _ hfresh⟩
  rcases hnew with ⟨p, hnew⟩
  constructor
  · intro kv hkv
    rw [hnew, List.mem_append, List.mem_singleton] at hkv
    rcases hkv with hkv | hkv
    · rcases h1 kv hkv with ⟨a, b, c⟩
      exact ⟨a, b, by rw [hset]; exact List.mem_append_left _ c⟩
    · subst hkv
      refine ⟨rfl, fun hmem => c3 (h2 _ hmem), ?_⟩
      rw [hset]
      exact List.mem_append_right _ (List.mem_singleton.mpr rfl)
  · intro k hk
    rw [hset]
    exact List.mem_append_left _ (h2 k hk)

theorem dupInv_step (existing : List (String × List (String × Nat))) (st : RunState) (d : Doc)
    (h : dupInv existing st) : dupInv existing (processDoc false st d) := by
  rcases processDoc_branch st d with ⟨_, hn, he⟩ | ⟨f, row, hd, _, c3, heq⟩
  · constructor
    · intro kv hkv
      rw [hn] at hkv
      rcases h.1 kv hkv with ⟨a, b, c⟩
      exact ⟨a, b, he ▸ c⟩
    · intro k hk
      exact he ▸ h.2 k hk
  · rw [heq]
    exact dupInv_insert existing st f row c3 h

theorem dupInv_fold (existing : List (String × List (String × Nat))) (docs : List Doc) :
    ∀ st : RunState, dupInv existing st → dupInv existing (docs.foldl (processDoc false) st) := by
  induction docs with
  | nil => intro st h; exact h
  | cons d ds ih => intro st h; exact ih _ (dupInv_step existing st d h)

theorem applyDuplicates_vacuous (existing newPos : List (String × List (String × Nat)))
    (h : ∀ kv ∈ newPos, kv.2.length = 1 ∧ kv.1 ∉ existing.map (·.1)) :
    ∀ acc : Workbook × Nat,
      newPos.foldl
        (fun acc kv =>
          let allPositions := lookupPositions existing kv.1 ++ kv.2
          if allPositions.length > 1 then (fillPositions acc.1 allPositions, acc.2 + 1)
          else acc) acc = acc := by
  induction newPos with
  | nil => intro acc; rfl
  | cons kv rest ih =>
    intro acc
    rcases h kv (List.mem_cons_self kv rest) with ⟨hlen, hnot⟩
    rw [List.foldl_cons]
    have : (lookupPositions existing kv.1 ++ kv.2).length = 1 := by
      rw [lookupPositions_nil existing kv.1 hnot]
      simpa using hlen
    simp only [this]
    exact ih (fun kv' h' => h kv' (List.mem_cons_of_mem kv h')) acc

/-- In any complete non-simulation run the duplicate pass finds nothing:
every UUID it examines has exactly one location, because documents whose
UUID is already indexed are skipped before insertion and same-run repeats
are skipped through `existing_uuid_set`. -/
theorem runDupCount_eq_zero (wb0 : Workbook) (docs : List Doc) :
    runDupCount wb0 docs = 0 := by
  have hinv : dupInv (collectUuidPositions wb0) (runFoldState wb0 docs false) := by
    apply dupInv_fold
    exact ⟨by simp [initState], fun k hk => by simpa [initState] using hk⟩
  unfold runDupCount applyDuplicates
  rw [applyDuplicates_vacuous _ _ (fun kv hkv => ⟨(hinv.1 kv hkv).1, (hinv.1 kv hkv).2.1⟩)]

/-- C1 (code bug): the duplicate-highlight invariant fails — in fact the
duplicate pass can never fire.  Generally, the duplicate counter of every
non-simulation run is zero; concretely, a ledger holding `DUP-1` at two
locations leaves both locations unhighlighted with no duplicate warning,
and a ledger holding `OLD-9` once plus an incoming document with the same
UUID skips the document (0 inserted) and leaves the old location
unhighlighted, instead of painting the group red and counting it. -/
theorem claim_C1_duplicates_never_flagged :
    (∀ (wb0 : Workbook) (docs : List Doc), runDupCount wb0 docs = 0) ∧
    (run wbDupPair [] false).result.warnings = 0 ∧
    highlightAt (run wbDupPair [] false).wb ("Enero 2025", 2) = some Highlight.none ∧
    highlightAt (run wbDupPair [] false).wb ("Enero 2025", 3) = some Highlight.none ∧
    (run wbOneOld [docOld] false).result = ⟨0, 0, 0, false⟩ ∧
    highlightAt (run wbOneOld [docOld] false).wb ("Enero 2025", 2) = some Highlight.none :=
  ⟨runDupCount_eq_zero, by decide, by decide, by decide, by decide, by decide⟩

/-! ## Locating sheets through the workbook operations -/

theorem ensureHeadersWs_name (s : Sheet) : (ensureHeadersWs s).name = s.name := by
  simp only [ensureHeadersWs]
  split <;> rfl

theorem ensureHeadersWs_data (s : Sheet) : (ensureHeadersWs s).data = s.data := by
  simp only [ensureHeadersWs]
  split <;> rfl

theorem sheetAt_eq_none (wb : Workbook) (t : String) (h : t ∉ sheetNames wb) :
    sheetAt wb t = none := by
  unfold sheetAt
  rw [List.find?_eq_none]
  intro s hs
  simp only [beq_iff_eq]
  intro he
  exact h (by simpa [sheetNames, he] using List.mem_map_of_mem (·.name) hs)

theorem sheetAt_of_mem (wb : Workbook) (t : String) (h : t ∈ sheetNames wb) :
    ∃ s, sheetAt wb t = some s ∧ s.name = t := by
  rcases wb with ⟨ss⟩
  induction ss with
  | nil => simp [sheetNames] at h
  | cons s rest ih =>
    by_cases he : s.name = t
    · exact ⟨s, by simp [sheetAt, List.find?, he], he⟩
    · have h' : t ∈ sheetNames ⟨rest⟩ := by
        simp only [sheetNames, List.map_cons, List.mem_cons] at h
        rcases h with h | h
        · exact absurd h.symm he
        · exact h
      rcases ih h' with ⟨s', hfind, hname⟩
      refine ⟨s', ?_, hname⟩
      simpa [sheetAt, List.find?, show (s.name == t) = false by simpa using he] using hfind

theorem sheetAt_modify (wb : Workbook) (t : String) (f : Sheet → Sheet)
    (hf : ∀ s, (f s).name = s.name) :
    sheetAt (modifySheet wb t f) t = (sheetAt wb t).map f := by
  rcases wb with ⟨ss⟩
  induction ss with
  | nil => rfl
  | cons s rest ih =>
    by_cases he : s.name = t
    · simp [sheetAt, modifySheet, modifySheetList, List.find?, he, hf s]
    · have hne : (s.name == t) = false := by simpa using he
      simpa [sheetAt, modifySheet, modifySheetList, List.find?, he, hne] using ih

theorem sheetAt_create_missing (wb : Workbook) (t : String) (h : t ∉ sheetNames wb) :
    sheetAt (createSheet wb t) t = some ⟨t, [], [], false⟩ := by
  have h0 : sheetAt wb t = none := sheetAt_eq_none wb t h
  unfold sheetAt at h0 ⊢
  unfold createSheet
  rw [List.find?_append, h0]
  simp [List.find?]

theorem names_modify (wb : Workbook) (t : String) (f : Sheet → Sheet)
    (hf : ∀ s, (f s).name = s.name) :
    sheetNames (modifySheet wb t f) = sheetNames wb := by
  rcases wb with ⟨ss⟩
  induction ss with
  | nil => rfl
  | cons s rest ih =>
    by_cases he : s.name = t <;>
      simp_all [sheetNames, modifySheet, modifySheetList, he, hf s]

/-- Where `ensureTarget` leaves the destination sheet: it exists, it
keeps (or starts with empty) data, and — when every deceptive header is
ruled out (`sheetWF`) — its header is the standard `COLUMNS` row. -/
theorem sheetAt_ensureTarget (wb : Workbook) (t : String) :
    ∃ s', sheetAt (ensureTarget wb t) t = some s' ∧
      s'.name = t ∧
      s'.data = ((sheetAt wb t).map (·.data)).getD [] := by
  unfold ensureTarget
  by_cases h : t ∈ sheetNames wb
  · rw [if_pos h]
    rcases sheetAt_of_mem wb t h with ⟨s, hat, hname⟩
    refine ⟨ensureHeadersWs s, ?_, ?_, ?_⟩
    · rw [sheetAt_modify wb t ensureHeadersWs ensureHeadersWs_name, hat]; rfl
    · rw [ensureHeadersWs_name]; exact hname
    · rw [ensureHeadersWs_data, hat]; rfl
  · rw [if_neg h]
    refine ⟨ensureHeadersWs ⟨t, [], [], false⟩, ?_, rfl, ?_⟩
    · have hnames : t ∈ sheetNames (createSheet wb t) := by
        simp [sheetNames, createSheet]
      rw [sheetAt_modify _ t ensureHeadersWs ensureHeadersWs_name,
        sheetAt_modify _ t ensureHeadersWs ensureHeadersWs_name,
        sheetAt_create_missing wb t h]
      rfl
    · rw [ensureHeadersWs_data, sheetAt_eq_none wb t h]
      rfl

theorem setFillAt_append_last (l : List Row) (r : Row) (hl : Highlight) :
    setFillAt (l ++ [r]) l.length hl = l ++ [⟨r.cells, hl⟩] := by
  induction l with
  | nil => rfl
  | cons x rest ih => simp [setFillAt, ih]

/-! ## C2 — the sheet sort is a highlight-preserving stable permutation -/

theorem rowLE_trans : ∀ a b c : Row, rowLE a b = true → rowLE b c = true → rowLE a c = true := by
  intro a b c hab hbc
  simp only [rowLE, decide_eq_true_eq] at *
  exact le_trans hab hbc

theorem rowLE_total : ∀ a b : Row, (rowLE a b || rowLE b a) = true := by
  intro a b
  simp only [rowLE, Bool.or_eq_true, decide_eq_true_eq]
  exact le_total _ _

/-- C2: for every qualifying sheet (name ending in the target year, at
least two data rows), the sort step keeps the sheet's name and header,
rewrites the data rows as a permutation of the original (value, highlight)
pairs, orders them by the two-part key (employee lowercased, issue date)
— this is the stable sort: rows already mutually ordered keep their
relative order — and a row whose date cell cannot be coerced gets the
maximum-value sentinel as its date key, so it sorts last. -/
theorem claim_C2_sort_permutation (s : Sheet)
    (hq : pyEndsWith s.name (" " ++ toString TARGET_YEAR) = true)
    (hn : 2 ≤ s.data.length) :
    (sortSheetRows s).name = s.name ∧
    (sortSheetRows s).header = s.header ∧
    (sortSheetRows s).data.Perm s.data ∧
    List.Pairwise (fun a b : Row => rowSortKey a ≤ rowSortKey b) (sortSheetRows s).data ∧
    (∀ a b : Row, rowLE a b = true → [a, b].Sublist s.data →
      [a, b].Sublist (sortSheetRows s).data) ∧
    (∀ r : Row, coerceDatetime (r.cells.getD 0 CellValue.empty) = Option.none →
      rowFecha r.cells = DateTime.maxVal) := by
  have hs : sortSheetRows s = { s with data := s.data.mergeSort rowLE } := by
    unfold sortSheetRows
    rw [if_neg (by simp [hq]), if_neg (by omega)]
  rw [hs]
  refine ⟨rfl, rfl, List.mergeSort_perm s.data rowLE, ?_, ?_, ?_⟩
  · exact (List.sorted_mergeSort rowLE_trans rowLE_total s.data).imp
      (fun h => by simpa [rowLE, decide_eq_true_eq] using h)
  · intro a b hab hsub
    exact List.mergeSort_stable_pair rowLE_trans rowLE_total hab hsub
  · intro r h
    unfold rowFecha
    rw [h, Option.getD_none]

/-- C2 (witness): the sort theorem applied to a concrete qualifying
sheet with an unparseable date cell. -/
theorem claim_C2_sort_permutation_witness :
    (pyEndsWith sheetTwoRows.name (" " ++ toString TARGET_YEAR) = true ∧
      2 ≤ sheetTwoRows.data.length) ∧
    (sortSheetRows sheetTwoRows).data.Perm sheetTwoRows.data :=
  ⟨⟨by decide, by decide⟩,
   (claim_C2_sort_permutation sheetTwoRows (by decide) (by decide)).2.2.1⟩

/-! ## C6 — destination sheet and month-mismatch highlighting -/

theorem sheetAt_append (wb : Workbook) (t : String) (r : Row) (s' : Sheet)
    (hat : sheetAt wb t = some s') :
    sheetAt (modifySheet wb t (fun s => { s with data := s.data ++ [r] })) t =
      some { s' with data := s'.data ++ [r] } := by
  rw [sheetAt_modify wb t (fun s => { s with data := s.data ++ [r] }) (fun s => rfl), hat]
  rfl

theorem sheetAt_fillRowWb (wb : Workbook) (t : String) (n : Nat) (hl : Highlight)
    (s' : Sheet) (hat : sheetAt wb t = some s') :
    sheetAt (fillRowWb wb t n hl) t = some { s' with data := setFillAt s'.data (n - 2) hl } := by
  unfold fillRowWb
  rw [sheetAt_modify wb t (fun s => { s with data := setFillAt s.data (n - 2) hl })
    (fun s => rfl), hat]
  rfl

theorem sheetAt_append_fill (wb : Workbook) (t : String) (r : Row) (hl : Highlight)
    (s' : Sheet) (hat : sheetAt wb t = some s') :
    sheetAt
      (fillRowWb (modifySheet wb t (fun s => { s with data := s.data ++ [r] })) t
        (((sheetAt (modifySheet wb t (fun s => { s with data := s.data ++ [r] })) t).map
          (fun s => s.data.length + 1)).getD 0) hl) t =
      some { s' with data := s'.data ++ [⟨r.cells, hl⟩] } := by
  have happ := sheetAt_append wb t r s' hat
  rw [sheetAt_fillRowWb _ t _ hl _ happ]
  simp only [happ, Option.map_some', Option.getD_some, List.length_append,
    List.length_singleton]
  have h2 : s'.data.length + 1 + 1 - 2 = s'.data.length := by omega
  rw [h2, setFillAt_append_last]

/-- C6: an accepted invoice is appended to the sheet named after its own
issue month and the target year (`targetSheetName`), not after the folder
month; the inserted counter increments by one; when the issue month
differs (case-insensitively) from the folder month, the appended row is
highlighted `YELLOW` and the warning counter increments by one, otherwise
the row is unhighlighted and the warnings stay unchanged. -/
theorem claim_C6_destination_and_mismatch (st : RunState) (f : String) (row : InvoiceRow)
    (h1 : row.fecha.year = TARGET_YEAR) (h2 : row.uuid ≠ "")
    (h3 : normalizeUuid row.uuid ∉ st.existingSet) :
    (processDoc false st (.parsed f row)).inserted = st.inserted + 1 ∧
    (processDoc false st (.parsed f row)).warnings = st.warnings +
      (if pyLower row.source_month ≠ pyLower (mesesInv row.fecha.month) then 1 else 0) ∧
    ((sheetAt (processDoc false st (.parsed f row)).wb (targetSheetName row)).map (·.data)) =
      some ((((sheetAt st.wb (targetSheetName row)).map (·.data)).getD []) ++
        [⟨rowCells row,
          if pyLower row.source_month ≠ pyLower (mesesInv row.fecha.month) then Highlight.yellow
          else Highlight.none⟩]) := by
  rw [processDoc_insert st f row h1 h2 h3]
  rcases sheetAt_ensureTarget st.wb (targetSheetName row) with ⟨s', hat, hname, hdata⟩
  refine ⟨rfl, rfl, ?_⟩
  by_cases hm : pyLower row.source_month ≠ pyLower (mesesInv row.fecha.month)
  · have h4 : (insertStep st f row).wb =
        fillRowWb
          (modifySheet (ensureTarget st.wb (targetSheetName row)) (targetSheetName row)
            (fun s => { s with data := s.data ++ [⟨rowCells row, Highlight.none⟩] }))
          (targetSheetName row)
          (((sheetAt (modifySheet (ensureTarget st.wb (targetSheetName row)) (targetSheetName row)
            (fun s => { s with data := s.data ++ [⟨rowCells row, Highlight.none⟩] }))
            (targetSheetName row)).map (fun s => s.data.length + 1)).getD 0)
          Highlight.yellow := by
      simp only [insertStep, if_pos hm]
    rw [h4, if_pos hm,
      sheetAt_append_fill (ensureTarget st.wb (targetSheetName row)) (targetSheetName row)
        ⟨rowCells row, Highlight.none⟩ Highlight.yellow s' hat]
    simp [hdata]
  · have h4 : (insertStep st f row).wb =
        modifySheet (ensureTarget st.wb (targetSheetName row)) (targetSheetName row)
          (fun s => { s with data := s.data ++ [⟨rowCells row, Highlight.none⟩] }) := by
      simp only [insertStep, if_neg hm]
    rw [h4, if_neg hm,
      sheetAt_append (ensureTarget st.wb (targetSheetName row)) (targetSheetName row)
        ⟨rowCells row, Highlight.none⟩ s' hat]
    simp [hdata]

/-- C6 (witness): an invoice dated 2026-02-10 filed under the `Enero`
folder is appended to sheet `"Febrero 2026"` with the month-mismatch
highlight and exactly one extra warning. -/
theorem claim_C6_destination_and_mismatch_witness :
    (rowFebEnero.fecha.year = TARGET_YEAR ∧ rowFebEnero.uuid ≠ "" ∧
      normalizeUuid rowFebEnero.uuid ∉ (initState wbHoja).existingSet ∧
      targetSheetName rowFebEnero = "Febrero 2026" ∧
      pyLower rowFebEnero.source_month ≠ pyLower (mesesInv rowFebEnero.fecha.month)) ∧
    ((processDoc false (initState wbHoja) (.parsed "f.xml" rowFebEnero)).inserted =
        (initState wbHoja).inserted + 1 ∧
      (processDoc false (initState wbHoja) (.parsed "f.xml" rowFebEnero)).warnings =
        (initState wbHoja).warnings +
          (if pyLower rowFebEnero.source_month ≠ pyLower (mesesInv rowFebEnero.fecha.month)
            then 1 else 0) ∧
      ((sheetAt (processDoc false (initState wbHoja) (.parsed "f.xml" rowFebEnero)).wb
          (targetSheetName rowFebEnero)).map (·.data)) =
        some ((((sheetAt (initState wbHoja).wb (targetSheetName rowFebEnero)).map
            (·.data)).getD []) ++
          [⟨rowCells rowFebEnero,
            if pyLower rowFebEnero.source_month ≠ pyLower (mesesInv rowFebEnero.fecha.month)
              then Highlight.yellow else Highlight.none⟩])) :=
  ⟨⟨by decide, by decide, by decide, by decide, by decide⟩,
   claim_C6_destination_and_mismatch (initState wbHoja) "f.xml" rowFebEnero
     (by decide) (by decide) (by decide)⟩

/-! ## C4 — what a simulation run does and does not touch -/

theorem modifySheetList_length (ss : List Sheet) (n : String) (f : Sheet → Sheet) :
    (modifySheetList ss n f).length = ss.length := by
  induction ss with
  | nil => rfl
  | cons s rest ih =>
    simp only [modifySheetList]
    split <;> simp [ih]

theorem modifySheetList_getD (ss : List Sheet) (n : String) (f : Sheet → Sheet)
    (hf : ∀ s, (f s).name = s.name ∧ (f s).data = s.data) :
    ∀ i, ((modifySheetList ss n f).getD i emptySheet).name = (ss.getD i emptySheet).name ∧
      ((modifySheetList ss n f).getD i emptySheet).data = (ss.getD i emptySheet).data := by
  induction ss with
  | nil => intro i; exact ⟨rfl, rfl⟩
  | cons s rest ih =>
    intro i
    simp only [modifySheetList]
    split
    · cases i with
      | zero => simpa using hf s
      | succ j => simp
    · cases i with
      | zero => simp
      | succ j => simpa using ih j

theorem dryPreserves_refl (wb : Workbook) : dryPreserves wb wb :=
  ⟨le_refl _, fun _ _ => ⟨rfl, rfl⟩⟩

theorem dryPreserves_trans {wb1 wb2 wb3 : Workbook}
    (h1 : dryPreserves wb1 wb2) (h2 : dryPreserves wb2 wb3) : dryPreserves wb1 wb3 := by
  refine ⟨h1.1.trans h2.1, fun i hi => ?_⟩
  rcases h1.2 i hi with ⟨hn1, hd1⟩
  rcases h2.2 i (lt_of_lt_of_le hi h1.1) with ⟨hn2, hd2⟩
  exact ⟨hn2.trans hn1, hd2.trans hd1⟩

theorem dryPreserves_modify (wb : Workbook) (n : String) (f : Sheet → Sheet)
    (hf : ∀ s, (f s).name = s.name ∧ (f s).data = s.data) :
    dryPreserves wb (modifySheet wb n f) := by
  refine ⟨?_, fun i hi => ?_⟩
  · simp [modifySheet, modifySheetList_length]
  · exact modifySheetList_getD wb.sheets n f hf i

theorem dryPreserves_create (wb : Workbook) (n : String) :
    dryPreserves wb (createSheet wb n) := by
  refine ⟨by simp [createSheet], fun i hi => ?_⟩
  simp [createSheet, List.getD, List.getElem?_append, hi]

theorem dryPreserves_ensureTarget (wb : Workbook) (t : String) :
    dryPreserves wb (ensureTarget wb t) := by
  have hens : ∀ s : Sheet, (ensureHeadersWs s).name = s.name ∧ (ensureHeadersWs s).data = s.data :=
    fun s => ⟨ensureHeadersWs_name s, ensureHeadersWs_data s⟩
  unfold ensureTarget
  split
  · exact dryPreserves_modify wb t ensureHeadersWs hens
  · exact dryPreserves_trans
      (dryPreserves_trans (dryPreserves_create wb t)
        (dryPreserves_modify _ t ensureHeadersWs hens))
      (dryPreserves_modify _ t ensureHeadersWs hens)

theorem processDoc_dry_wb (st : RunState) (d : Doc) :
    dryPreserves st.wb (processDoc true st d).wb := by
  cases d with
  | parseFail f m => exact dryPreserves_refl _
  | parsed f row =>
    simp only [processDoc]
    split_ifs
    · exact dryPreserves_refl _
    · exact dryPreserves_refl _
    · exact dryPreserves_refl _
    · exact dryPreserves_ensureTarget st.wb (targetSheetName row)

theorem foldl_dry_wb (docs : List Doc) : ∀ st : RunState,
    dryPreserves st.wb (docs.foldl (processDoc true) st).wb := by
  induction docs with
  | nil => intro st; exact dryPreserves_refl _
  | cons d ds ih =>
    intro st
    exact dryPreserves_trans (processDoc_dry_wb st d) (ih (processDoc true st d))

/-- C4 (counterexample): the claim says a simulation run does not mutate
the workbook (no sheet created or modified) and logs exactly as a normal
run.  On the concrete input below, the simulation run creates the sheet
`Febrero 2026` in the in-memory workbook, and its log differs from the
normal run's log (the month-mismatch warning line is only logged when the
row is actually inserted). -/
theorem claim_C4_counterexample :
    (run wbHoja [Doc.parsed "f.xml" rowFebEnero] true).wb ≠ wbHoja ∧
    (run wbHoja [Doc.parsed "f.xml" rowFebEnero] true).log ≠
      (run wbHoja [Doc.parsed "f.xml" rowFebEnero] false).log := by
  constructor
  · decide
  · decide

/-- C4 (amended): a simulation run never saves the ledger file and never
touches the contents: every pre-existing sheet keeps its position, its
title and its data rows unchanged (no row appended, no highlight
applied); however, missing destination sheets may still be created in the
in-memory workbook and headers/filters normalized, and the mutation-side
log lines of a normal run are not emitted. -/
theorem claim_C4_simulation_frame (wb0 : Workbook) (docs : List Doc) :
    (run wb0 docs true).saved = false ∧
    wb0.sheets.length ≤ (run wb0 docs true).wb.sheets.length ∧
    ∀ i, i < wb0.sheets.length →
      ((run wb0 docs true).wb.sheets.getD i emptySheet).name =
        (wb0.sheets.getD i emptySheet).name ∧
      ((run wb0 docs true).wb.sheets.getD i emptySheet).data =
        (wb0.sheets.getD i emptySheet).data := by
  have h : dryPreserves wb0 (docs.foldl (processDoc true) (initState wb0)).wb :=
    foldl_dry_wb docs (initState wb0)
  exact ⟨rfl, h.1, h.2⟩

/-- C4 (witness): the frame property at a concrete simulation run. -/
theorem claim_C4_simulation_frame_witness :
    ((0 : Nat) < wbOneOld.sheets.length) ∧
    (((run wbOneOld docsMixed true).wb.sheets.getD 0 emptySheet).name =
        (wbOneOld.sheets.getD 0 emptySheet).name ∧
      ((run wbOneOld docsMixed true).wb.sheets.getD 0 emptySheet).data =
        (wbOneOld.sheets.getD 0 emptySheet).data) :=
  ⟨by decide, (claim_C4_simulation_frame wbOneOld docsMixed).2.2 0 (by decide)⟩

/-! ## C7 — idempotence machinery: the ledger index after a run -/

theorem addPos_keys (m : List (String × List (String × Nat))) (k : String) (p : String × Nat) :
    ∀ x, x ∈ (addPos m k p).map (·.1) ↔ x ∈ m.map (·.1) ∨ x = k := by
  induction m with
  | nil => intro x; simp [addPos]
  | cons kv rest ih =>
    intro x
    rcases kv with ⟨k', ps⟩
    by_cases he : k' = k
    · subst he
      simp [addPos]
      tauto
    · simp only [addPos, if_neg he, List.map_cons, List.mem_cons, ih]
      tauto

theorem filterMap_enumFrom {α : Type} (f : Row → Option α) :
    ∀ (n : Nat) (l : List Row),
      (List.enumFrom n l).filterMap (fun ir => f ir.2) = l.filterMap f := by
  intro n l
  induction l generalizing n with
  | nil => rfl
  | cons r rest ih => simp [List.enumFrom, List.filterMap_cons, ih]

theorem collect_inner_keys (name : String) (l : List (Nat × Row)) :
    ∀ (acc : List (String × List (String × Nat))) (x : String),
      x ∈ ((l.foldl
        (fun a ir =>
          match rowUuidKey ir.2 with
          | some key => addPos a key (name, ir.1 + 2)
          | none => a) acc).map (·.1)) ↔
      x ∈ acc.map (·.1) ∨ x ∈ l.filterMap (fun ir => rowUuidKey ir.2) := by
  induction l with
  | nil => intro acc x; simp
  | cons ir rest ih =>
    intro acc x
    rw [List.foldl_cons]
    cases hk : rowUuidKey ir.2 with
    | none => simp [hk, ih]
    | some key =>
      simp only [hk, ih, addPos_keys]
      simp only [List.filterMap_cons, hk, List.mem_cons]
      tauto

theorem collectSheetInto_keys (acc : List (String × List (String × Nat))) (s : Sheet) :
    ∀ x, x ∈ (collectSheetInto acc s).map (·.1) ↔ x ∈ acc.map (·.1) ∨ x ∈ sheetKeys s := by
  intro x
  unfold collectSheetInto sheetKeys
  by_cases h1 : s.data.isEmpty
  · simp [h1]
  · by_cases h2 : sheetHeaderCells s ≠ columnsCells
    · simp [h1, h2]
    · rw [if_neg h1, if_neg h1, if_neg h2, if_neg h2]
      rw [show s.data.enum = List.enumFrom 0 s.data from rfl]
      rw [collect_inner_keys s.name (List.enumFrom 0 s.data) acc x,
        filterMap_enumFrom rowUuidKey 0 s.data]

theorem collect_foldl_keys (sheets : List Sheet) :
    ∀ (acc : List (String × List (String × Nat))) (x : String),
      x ∈ ((sheets.foldl collectSheetInto acc).map (·.1)) ↔
      x ∈ acc.map (·.1) ∨ x ∈ (sheets.map sheetKeys).flatten := by
  induction sheets with
  | nil => intro acc x; simp
  | cons s rest ih =>
    intro acc x
    rw [List.foldl_cons, ih, collectSheetInto_keys]
    simp [or_assoc]

/-- The keys of the ledger UUID index are exactly `wbKeys`. -/
theorem collect_keys (wb : Workbook) (x : String) :
    x ∈ (collectUuidPositions wb).map (·.1) ↔ x ∈ wbKeys wb := by
  unfold collectUuidPositions wbKeys
  rw [collect_foldl_keys wb.sheets [] x]
  simp

theorem wbKeys_cons (s : Sheet) (ss : List Sheet) :
    wbKeys ⟨s :: ss⟩ = sheetKeys s ++ wbKeys ⟨ss⟩ := by
  simp [wbKeys]

theorem sheetKeys_mem_wbKeys (wb : Workbook) (s : Sheet) (hs : s ∈ wb.sheets) :
    ∀ x ∈ sheetKeys s, x ∈ wbKeys wb := by
  intro x hx
  unfold wbKeys
  exact List.mem_flatten.mpr ⟨sheetKeys s, List.mem_map_of_mem sheetKeys hs, hx⟩

theorem wbKeys_modify_mono (wb : Workbook) (n : String) (f : Sheet → Sheet)
    (hf : ∀ s, ∀ x ∈ sheetKeys s, x ∈ sheetKeys (f s)) :
    ∀ x ∈ wbKeys wb, x ∈ wbKeys (modifySheet wb n f) := by
  rcases wb with ⟨ss⟩
  induction ss with
  | nil => intro x hx; exact hx
  | cons s rest ih =>
    intro x hx
    show x ∈ wbKeys ⟨modifySheetList (s :: rest) n f⟩
    unfold modifySheetList
    rw [wbKeys_cons] at hx
    by_cases he : s.name = n
    · rw [if_pos he, wbKeys_cons]
      rcases List.mem_append.mp hx with h | h
      · exact List.mem_append_left _ (hf s x h)
      · exact List.mem_append_right _ h
    · rw [if_neg he, wbKeys_cons]
      rcases List.mem_append.mp hx with h | h
      · exact List.mem_append_left _ h
      · exact List.mem_append_right _ (ih x h)

theorem wbKeys_createSheet (wb : Workbook) (t : String) (x : String) :
    x ∈ wbKeys (createSheet wb t) ↔ x ∈ wbKeys wb := by
  unfold wbKeys createSheet
  simp [sheetKeys]

/-! ## C7 — header well-formedness, key preservation, and idempotence -/

theorem sheetHeaderCells_of_columns (s : Sheet) (h : s.header = columnsCells) :
    sheetHeaderCells s = columnsCells := by
  unfold sheetHeaderCells
  rw [h]
  decide

theorem sheetWF_ensure (s : Sheet) (h : sheetWF s = true) :
    sheetWF (ensureHeadersWs s) = true := by
  unfold ensureHeadersWs
  split
  · simp [sheetWF]
  · simpa [sheetWF] using h

theorem mem_modifySheetList (ss : List Sheet) (n : String) (f : Sheet → Sheet) :
    ∀ s' ∈ modifySheetList ss n f, s' ∈ ss ∨ ∃ s ∈ ss, s' = f s := by
  induction ss with
  | nil => intro s' h; exact absurd h (List.not_mem_nil s')
  | cons s rest ih =>
    intro s' h
    unfold modifySheetList at h
    split at h
    · rcases List.mem_cons.mp h with h | h
      · exact Or.inr ⟨s, List.mem_cons_self s rest, h⟩
      · exact Or.inl (List.mem_cons_of_mem s h)
    · rcases List.mem_cons.mp h with h | h
      · exact Or.inl (h ▸ List.mem_cons_self s rest)
      · rcases ih s' h with h' | ⟨s₀, hs₀, he⟩
        · exact Or.inl (List.mem_cons_of_mem s h')
        · exact Or.inr ⟨s₀, List.mem_cons_of_mem s hs₀, he⟩

theorem wbWF_modify (wb : Workbook) (n : String) (f : Sheet → Sheet)
    (hwf : wbWF wb) (hf : ∀ s, sheetWF s = true → sheetWF (f s) = true) :
    wbWF (modifySheet wb n f) := by
  intro s' hs'
  rcases mem_modifySheetList wb.sheets n f s' hs' with h | ⟨s, hs, he⟩
  · exact hwf s' h
  · exact he ▸ hf s (hwf s hs)

theorem wbWF_create (wb : Workbook) (t : String) (hwf : wbWF wb) :
    wbWF (createSheet wb t) := by
  intro s hs
  rcases List.mem_append.mp hs with h | h
  · exact hwf s h
  · rw [List.mem_singleton.mp h]
    simp [sheetWF]

theorem wbWF_ensureTarget (wb : Workbook) (t : String) (hwf : wbWF wb) :
    wbWF (ensureTarget wb t) := by
  unfold ensureTarget
  split
  · exact wbWF_modify wb t ensureHeadersWs hwf sheetWF_ensure
  · exact wbWF_modify _ t ensureHeadersWs
      (wbWF_modify _ t ensureHeadersWs (wbWF_create wb t hwf) sheetWF_ensure) sheetWF_ensure

/-- Model of `ensureTarget` under a well-formed workbook: the destination sheet
exists, its header is the standard one, and its data is unchanged. -/
theorem ensureTarget_header (wb : Workbook) (t : String) (hwf : wbWF wb) :
    ∃ s', sheetAt (ensureTarget wb t) t = some s' ∧ s'.header = columnsCells ∧
      s'.data = ((sheetAt wb t).map (·.data)).getD [] := by
  unfold ensureTarget
  by_cases h : t ∈ sheetNames wb
  · rw [if_pos h]
    rcases sheetAt_of_mem wb t h with ⟨s, hat, hname⟩
    have hmem : s ∈ wb.sheets := List.mem_of_find?_eq_some hat
    refine ⟨ensureHeadersWs s, ?_, ?_, ?_⟩
    · rw [sheetAt_modify wb t ensureHeadersWs ensureHeadersWs_name, hat]; rfl
    · unfold ensureHeadersWs
      split
      · rfl
      · next hfe =>
        have := hwf s hmem
        simp only [sheetWF, decide_eq_true_eq] at this
        exact this (not_not.mp (by simpa using hfe))
    · rw [ensureHeadersWs_data, hat]; rfl
  · rw [if_neg h]
    refine ⟨ensureHeadersWs ⟨t, [], [], false⟩, ?_, ?_, ?_⟩
    · rw [sheetAt_modify _ t ensureHeadersWs ensureHeadersWs_name,
        sheetAt_modify _ t ensureHeadersWs ensureHeadersWs_name,
        sheetAt_create_missing wb t h]
      rfl
    · simp only [ensureHeadersWs]
      split
      · rfl
      · next hfe => simp at hfe
    · rw [ensureHeadersWs_data, sheetAt_eq_none wb t h]
      rfl

theorem sheetKeys_autoFilter (s : Sheet) (b : Bool) :
    sheetKeys { s with autoFilter := b } = sheetKeys s := rfl

theorem header_first_of_headerCells (s : Sheet) (h : sheetHeaderCells s = columnsCells) :
    s.header.getD 0 CellValue.empty = CellValue.str "Fecha" := by
  have hr : List.range COLUMNS.length = [0, 1, 2, 3, 4, 5, 6, 7, 8, 9, 10, 11] := rfl
  unfold sheetHeaderCells at h
  rw [hr] at h
  simp only [List.map_cons, List.map_nil, columnsCells, COLUMNS] at h
  exact (List.cons.injEq _ _ _ _).mp h |>.1

theorem sheetKeys_ensure_mono (s : Sheet) :
    ∀ x ∈ sheetKeys s, x ∈ sheetKeys (ensureHeadersWs s) := by
  intro x hx
  by_cases hh : sheetHeaderCells s = columnsCells
  · have hfe := header_first_of_headerCells s hh
    unfold ensureHeadersWs
    rw [if_neg (not_ne_iff.mpr hfe)]
    rw [sheetKeys_autoFilter]
    exact hx
  · unfold sheetKeys at hx
    rw [if_neg] at hx
    · rw [if_pos (by simpa using hh)] at hx
      exact absurd hx (List.not_mem_nil x)
    · intro hie
      rw [if_pos hie] at hx
      exact absurd hx (List.not_mem_nil x)

theorem sheetKeys_append_mono (s : Sheet) (r : Row) :
    ∀ x ∈ sheetKeys s, x ∈ sheetKeys { s with data := s.data ++ [r] } := by
  intro x hx
  unfold sheetKeys at hx ⊢
  by_cases h1 : s.data.isEmpty
  · rw [if_pos h1] at hx
    exact absurd hx (List.not_mem_nil x)
  · by_cases h2 : sheetHeaderCells s ≠ columnsCells
    · rw [if_neg h1, if_pos h2] at hx
      exact absurd hx (List.not_mem_nil x)
    · rw [if_neg h1, if_neg h2] at hx
      have h1' : (s.data ++ [r]).isEmpty = false := by
        simp
      have h2' : ¬ sheetHeaderCells { s with data := s.data ++ [r] } ≠ columnsCells := h2
      rw [show ({ s with data := s.data ++ [r] } : Sheet).data = s.data ++ [r] from rfl, h1']
      rw [if_neg (by simp), if_neg h2']
      rw [List.filterMap_append]
      exact List.mem_append_left _ hx

theorem setFillAt_filterMap (l : List Row) : ∀ (i : Nat) (hl : Highlight),
    (setFillAt l i hl).filterMap rowUuidKey = l.filterMap rowUuidKey := by
  induction l with
  | nil => intro i hl; rfl
  | cons r rest ih =>
    intro i hl
    cases i with
    | zero =>
      show List.filterMap rowUuidKey ({ r with fill := hl } :: rest) = _
      rw [List.filterMap_cons, List.filterMap_cons]
      rfl
    | succ j =>
      show List.filterMap rowUuidKey (r :: setFillAt rest j hl) = _
      rw [List.filterMap_cons, List.filterMap_cons, ih j hl]

theorem setFillAt_isEmpty (l : List Row) : ∀ (i : Nat) (hl : Highlight),
    (setFillAt l i hl).isEmpty = l.isEmpty := by
  induction l with
  | nil => intro i hl; rfl
  | cons r rest ih =>
    intro i hl
    cases i <;> rfl

theorem sheetKeys_fill (s : Sheet) (i : Nat) (hl : Highlight) :
    sheetKeys { s with data := setFillAt s.data i hl } = sheetKeys s := by
  unfold sheetKeys
  rw [show ({ s with data := setFillAt s.data i hl } : Sheet).data = setFillAt s.data i hl
    from rfl, setFillAt_isEmpty, setFillAt_filterMap]
  rfl

theorem wbKeys_ensureTarget_mono (wb : Workbook) (t : String) :
    ∀ x ∈ wbKeys wb, x ∈ wbKeys (ensureTarget wb t) := by
  intro x hx
  unfold ensureTarget
  split
  · exact wbKeys_modify_mono wb t ensureHeadersWs sheetKeys_ensure_mono x hx
  · apply wbKeys_modify_mono _ t ensureHeadersWs sheetKeys_ensure_mono
    apply wbKeys_modify_mono _ t ensureHeadersWs sheetKeys_ensure_mono
    exact (wbKeys_createSheet wb t x).mpr hx

theorem rowUuidKey_rowCells (row : InvoiceRow) (hl : Highlight)
    (h2 : row.uuid ≠ "") (hk : normalizeUuid row.uuid ≠ "") :
    rowUuidKey ⟨rowCells row, hl⟩ = some (normalizeUuid row.uuid) := by
  simp [rowUuidKey, rowCells, cellTruthy, cellToStr, h2, hk]

theorem wbKeys_insertStep (st : RunState) (f : String) (row : InvoiceRow)
    (hwf : wbWF st.wb) (h2 : row.uuid ≠ "") (hk : normalizeUuid row.uuid ≠ "") :
    (∀ x ∈ wbKeys st.wb, x ∈ wbKeys (insertStep st f row).wb) ∧
    normalizeUuid row.uuid ∈ wbKeys (insertStep st f row).wb ∧
    wbWF (insertStep st f row).wb := by
  obtain ⟨s', hat, hhdr, _⟩ := ensureTarget_header st.wb (targetSheetName row) hwf
  have happ := sheetAt_append (ensureTarget st.wb (targetSheetName row)) (targetSheetName row)
    ⟨rowCells row, Highlight.none⟩ s' hat
  -- keys of the appended target sheet
  have hkey3 : normalizeUuid row.uuid ∈
      sheetKeys { s' with data := s'.data ++ [⟨rowCells row, Highlight.none⟩] } := by
    unfold sheetKeys
    rw [if_neg (by simp), if_neg (by
      simp only [ne_eq, not_not]
      exact sheetHeaderCells_of_columns _ hhdr)]
    rw [show ({ s' with data := s'.data ++ [⟨rowCells row, Highlight.none⟩] } : Sheet).data =
      s'.data ++ [⟨rowCells row, Highlight.none⟩] from rfl]
    rw [List.filterMap_append]
    refine List.mem_append_right _ ?_
    rw [List.filterMap_cons, rowUuidKey_rowCells row Highlight.none h2 hk]
    exact List.mem_cons_self _ _
  have hwb3mono : ∀ x ∈ wbKeys st.wb, x ∈ wbKeys
      (modifySheet (ensureTarget st.wb (targetSheetName row)) (targetSheetName row)
        (fun s => { s with data := s.data ++ [⟨rowCells row, Highlight.none⟩] })) := by
    intro x hx
    exact wbKeys_modify_mono _ _ _ (fun s => sheetKeys_append_mono s _)
      x (wbKeys_ensureTarget_mono st.wb (targetSheetName row) x hx)
  have hkey3' : normalizeUuid row.uuid ∈ wbKeys
      (modifySheet (ensureTarget st.wb (targetSheetName row)) (targetSheetName row)
        (fun s => { s with data := s.data ++ [⟨rowCells row, Highlight.none⟩] })) := by
    apply sheetKeys_mem_wbKeys _ _ (List.mem_of_find?_eq_some happ)
    exact hkey3
  have hwf3 : wbWF (modifySheet (ensureTarget st.wb (targetSheetName row)) (targetSheetName row)
      (fun s => { s with data := s.data ++ [⟨rowCells row, Highlight.none⟩] })) :=
    wbWF_modify _ _ _ (wbWF_ensureTarget st.wb _ hwf) (fun s h => h)
  by_cases hm : pyLower row.source_month ≠ pyLower (mesesInv row.fecha.month)
  · have hwb : (insertStep st f row).wb = fillRowWb
        (modifySheet (ensureTarget st.wb (targetSheetName row)) (targetSheetName row)
          (fun s => { s with data := s.data ++ [⟨rowCells row, Highlight.none⟩] }))
        (targetSheetName row)
        (((sheetAt (modifySheet (ensureTarget st.wb (targetSheetName row)) (targetSheetName row)
          (fun s => { s with data := s.data ++ [⟨rowCells row, Highlight.none⟩] }))
          (targetSheetName row)).map (fun s => s.data.length + 1)).getD 0)
        Highlight.yellow := by
      simp only [insertStep, if_pos hm]
    rw [hwb]
    unfold fillRowWb
    refine ⟨?_, ?_, ?_⟩
    · intro x hx
      apply wbKeys_modify_mono _ _ _ (fun s => by rw [sheetKeys_fill]; exact fun y hy => hy)
      exact hwb3mono x hx
    · apply wbKeys_modify_mono _ _ _ (fun s => by rw [sheetKeys_fill]; exact fun y hy => hy)
      exact hkey3'
    · exact wbWF_modify _ _ _ hwf3 (fun s h => h)
  · have hwb : (insertStep st f row).wb =
        modifySheet (ensureTarget st.wb (targetSheetName row)) (targetSheetName row)
          (fun s => { s with data := s.data ++ [⟨rowCells row, Highlight.none⟩] }) := by
      simp only [insertStep, if_neg hm]
    rw [hwb]
    exact ⟨hwb3mono, hkey3', hwf3⟩

theorem inv_step (st : RunState) (d : Doc) (hn : docNormalized d = true)
    (h : wbWF st.wb ∧ ∀ x ∈ st.existingSet, x ∈ wbKeys st.wb) :
    wbWF (processDoc false st d).wb ∧
    ∀ x ∈ (processDoc false st d).existingSet, x ∈ wbKeys (processDoc false st d).wb := by
  rcases processDoc_branch st d with ⟨hwb, _, he⟩ | ⟨f, row, hd, h2, c3, heq⟩
  · rw [hwb, he]
    exact h
  · subst hd
    have hfix : normalizeUuid row.uuid = row.uuid := by
      simpa [docNormalized] using hn
    have hk : normalizeUuid row.uuid ≠ "" := by rw [hfix]; exact h2
    rcases wbKeys_insertStep st f row h.1 h2 hk with ⟨hmono, hkey, hwf⟩
    rw [heq]
    refine ⟨hwf, ?_⟩
    intro x hx
    have hset : (insertStep st f row).existingSet =
        st.existingSet ++ [normalizeUuid row.uuid] := rfl
    rw [hset, List.mem_append, List.mem_singleton] at hx
    rcases hx with hx | hx
    · exact hmono x (h.2 x hx)
    · exact hx ▸ hkey

theorem inv_fold (docs : List Doc) : ∀ st : RunState,
    (∀ d ∈ docs, docNormalized d = true) →
    (wbWF st.wb ∧ ∀ x ∈ st.existingSet, x ∈ wbKeys st.wb) →
    wbWF (docs.foldl (processDoc false) st).wb ∧
    ∀ x ∈ (docs.foldl (processDoc false) st).existingSet,
      x ∈ wbKeys (docs.foldl (processDoc false) st).wb := by
  induction docs with
  | nil => intro st _ h; exact h
  | cons d ds ih =>
    intro st hn h
    rw [List.foldl_cons]
    exact ih _ (fun d' hd' => hn d' (List.mem_cons_of_mem d hd'))
      (inv_step st d (hn d (List.mem_cons_self d ds)) h)

theorem processDoc_existingSet_mono (b : Bool) (st : RunState) (d : Doc) :
    ∀ x ∈ st.existingSet, x ∈ (processDoc b st d).existingSet := by
  cases d with
  | parseFail f m => exact fun x hx => hx
  | parsed f row =>
    simp only [processDoc]
    split_ifs
    · exact fun x hx => hx
    · exact fun x hx => hx
    · exact fun x hx => hx
    · exact fun x hx => hx
    · intro x hx
      have hset : (insertStep st f row).existingSet =
          st.existingSet ++ [normalizeUuid row.uuid] := rfl
      rw [hset]
      exact List.mem_append_left _ hx

theorem foldl_existingSet_mono (b : Bool) (docs : List Doc) : ∀ st : RunState,
    ∀ x ∈ st.existingSet, x ∈ (docs.foldl (processDoc b) st).existingSet := by
  induction docs with
  | nil => exact fun st x hx => hx
  | cons d ds ih =>
    intro st x hx
    rw [List.foldl_cons]
    exact ih _ x (processDoc_existingSet_mono b st d x hx)

theorem docFails_parsed_false {f : String} {row : InvoiceRow} :
    docFails (.parsed f row) = false ↔ row.fecha.year = TARGET_YEAR ∧ row.uuid ≠ "" := by
  by_cases hy : row.fecha.year = TARGET_YEAR <;> by_cases hu : row.uuid = "" <;>
    simp [docFails, docFailMsg, hy, hu]

theorem processDoc_adds_key (st : RunState) (f : String) (row : InvoiceRow)
    (h1 : row.fecha.year = TARGET_YEAR) (h2 : row.uuid ≠ "") :
    normalizeUuid row.uuid ∈ (processDoc false st (.parsed f row)).existingSet := by
  by_cases hmem : normalizeUuid row.uuid ∈ st.existingSet
  · rw [processDoc_skip false st f row h1 h2 hmem]
    exact hmem
  · rw [processDoc_insert st f row h1 h2 hmem]
    have hset : (insertStep st f row).existingSet =
        st.existingSet ++ [normalizeUuid row.uuid] := rfl
    rw [hset]
    exact List.mem_append_right _ (List.mem_singleton.mpr rfl)

theorem foldl_key_mem (docs : List Doc) : ∀ (st : RunState) (f : String) (row : InvoiceRow),
    Doc.parsed f row ∈ docs → row.fecha.year = TARGET_YEAR → row.uuid ≠ "" →
    normalizeUuid row.uuid ∈ (docs.foldl (processDoc false) st).existingSet := by
  induction docs with
  | nil => intro st f row hm; exact absurd hm (List.not_mem_nil _)
  | cons d ds ih =>
    intro st f row hm h1 h2
    rw [List.foldl_cons]
    rcases List.mem_cons.mp hm with hm | hm
    · subst hm
      exact foldl_existingSet_mono false ds _ _ (processDoc_adds_key st f row h1 h2)
    · exact ih _ f row hm h1 h2

/-! sort pass preserves the key set -/

theorem sheetKeys_sortSheetRows (s : Sheet) (x : String) :
    x ∈ sheetKeys (sortSheetRows s) ↔ x ∈ sheetKeys s := by
  unfold sortSheetRows
  split_ifs with hq hn
  · exact Iff.rfl
  · exact Iff.rfl
  · have hperm := List.mergeSort_perm s.data rowLE
    have hie : (s.data.mergeSort rowLE).isEmpty = s.data.isEmpty := by
      by_cases h0 : s.data = []
      · simp [h0]
      · have h1 : s.data.mergeSort rowLE ≠ [] := by
          intro hc
          exact h0 (List.perm_nil.mp (hc ▸ hperm.symm))
        rcases hd : s.data.mergeSort rowLE with _ | ⟨b, bs⟩
        · exact absurd hd h1
        · rcases hd2 : s.data with _ | ⟨a, as⟩
          · exact absurd hd2 h0
          · rfl
    unfold sheetKeys
    rw [show ({ s with data := s.data.mergeSort rowLE } : Sheet).data =
      s.data.mergeSort rowLE from rfl,
      show sheetHeaderCells { s with data := s.data.mergeSort rowLE } = sheetHeaderCells s
        from rfl, hie]
    by_cases h1 : s.data.isEmpty
    · rw [if_pos h1, if_pos h1]
    · rw [if_neg h1, if_neg h1]
      by_cases h2 : sheetHeaderCells s ≠ columnsCells
      · rw [if_pos h2, if_pos h2]
      · rw [if_neg h2, if_neg h2]
        exact (hperm.filterMap rowUuidKey).mem_iff

theorem wbKeys_sortAll (wb : Workbook) (x : String) :
    x ∈ wbKeys (sortAllMonthSheets wb) ↔ x ∈ wbKeys wb := by
  rcases wb with ⟨ss⟩
  induction ss with
  | nil => exact Iff.rfl
  | cons s rest ih =>
    show x ∈ wbKeys ⟨sortSheetRows s :: rest.map sortSheetRows⟩ ↔ _
    rw [wbKeys_cons, wbKeys_cons]
    rw [List.mem_append, List.mem_append]
    exact or_congr (sheetKeys_sortSheetRows s x) ih

/-! the second run inserts nothing -/

theorem foldl_no_insert (docs : List Doc) : ∀ st : RunState,
    (∀ (f : String) (row : InvoiceRow), Doc.parsed f row ∈ docs →
      docFails (.parsed f row) = false → normalizeUuid row.uuid ∈ st.existingSet) →
    (docs.foldl (processDoc false) st).inserted = st.inserted := by
  induction docs with
  | nil => intro st _; rfl
  | cons d ds ih =>
    intro st h
    rw [List.foldl_cons]
    cases d with
    | parseFail f m =>
      rw [show processDoc false st (.parseFail f m) =
        { st with
            errors := st.errors + 1,
            log := st.log ++ ["ERROR parseando " ++ f ++ ": " ++ m] } from rfl]
      exact ih _ (fun f' row' hm hfail => h f' row' (List.mem_cons_of_mem _ hm) hfail)
    | parsed f row =>
      by_cases hfail : docFails (.parsed f row) = false
      · rcases docFails_parsed_false.mp hfail with ⟨h1, h2⟩
        have hkm := h f row (List.mem_cons_self _ _) hfail
        rw [processDoc_skip false st f row h1 h2 hkm]
        exact ih _ (fun f' row' hm hfail' => h f' row' (List.mem_cons_of_mem _ hm) hfail')
      · have hfail' : docFails (.parsed f row) = true := by
          simpa using hfail
        obtain ⟨line, hline⟩ := Option.isSome_iff_exists.mp (by
          simpa [docFails] using hfail')
        rw [processDoc_fail false st hline]
        exact ih _ (fun f' row' hm hfail'' => h f' row' (List.mem_cons_of_mem _ hm) hfail'')

/-- C7 (counterexample): the claim fails on a ledger holding a sheet
named `Febrero 2026` whose header starts with `Fecha` but is not the
standard header: `_ensure_headers` leaves such a header alone, the
inserted row is appended below it, and `_collect_uuid_positions` of the
second run ignores the sheet, so the same document is inserted again. -/
theorem claim_C7_counterexample :
    (run (run wbBadHeader [docFeb] false).wb [docFeb] false).result.inserted = 1 := by
  decide

/-- C7 (amended): the engine is idempotent for ledgers without deceptive
headers and parser-produced documents: if every sheet whose first header
cell reads `Fecha` carries the full standard header (`wbWF`, true of every
ledger in the documented format) and every parsed document's UUID is a
fixed point of normalization (true of everything `_parse_invoice` emits),
then running the engine twice over the same documents and the same ledger
inserts zero rows on the second run. -/
theorem claim_C7_idempotent (wb0 : Workbook) (docs : List Doc)
    (hwf : wbWF wb0) (hnorm : ∀ d ∈ docs, docNormalized d = true) :
    (run (run wb0 docs false).wb docs false).result.inserted = 0 := by
  have hinv := inv_fold docs (initState wb0) hnorm
    ⟨hwf, fun x hx => (collect_keys wb0 x).mp (by simpa [initState] using hx)⟩
  have hdupv : dupInv (collectUuidPositions wb0)
      (docs.foldl (processDoc false) (initState wb0)) :=
    dupInv_fold (collectUuidPositions wb0) docs (initState wb0)
      ⟨by simp [initState], fun k hk => by simpa [initState] using hk⟩
  have hdup : applyDuplicates (docs.foldl (processDoc false) (initState wb0)).wb
      (collectUuidPositions wb0)
      (docs.foldl (processDoc false) (initState wb0)).newPositions =
      ((docs.foldl (processDoc false) (initState wb0)).wb, 0) := by
    unfold applyDuplicates
    exact applyDuplicates_vacuous _ _
      (fun kv hkv => ⟨(hdupv.1 kv hkv).1, (hdupv.1 kv hkv).2.1⟩) _
  have hwb1 : (run wb0 docs false).wb =
      sortAllMonthSheets (docs.foldl (processDoc false) (initState wb0)).wb := by
    show sortAllMonthSheets (applyDuplicates
        (docs.foldl (processDoc false) (initState wb0)).wb (collectUuidPositions wb0)
        (docs.foldl (processDoc false) (initState wb0)).newPositions).1 = _
    rw [hdup]
  rw [run_result_def]
  show (runFoldState (run wb0 docs false).wb docs false).inserted = 0
  unfold runFoldState
  rw [foldl_no_insert docs (initState (run wb0 docs false).wb)]
  · rfl
  · intro f row hm hfail
    rcases docFails_parsed_false.mp hfail with ⟨h1, h2⟩
    have hk1 : normalizeUuid row.uuid ∈
        (docs.foldl (processDoc false) (initState wb0)).existingSet :=
      foldl_key_mem docs (initState wb0) f row hm h1 h2
    have hk2 : normalizeUuid row.uuid ∈
        wbKeys (docs.foldl (processDoc false) (initState wb0)).wb :=
      hinv.2 _ hk1
    show normalizeUuid row.uuid ∈ (collectUuidPositions ((run wb0 docs false).wb)).map (·.1)
    rw [collect_keys, hwb1, wbKeys_sortAll]
    exact hk2

/-- C7 (witness): the amended idempotence at a concrete conforming ledger
and document list. -/
theorem claim_C7_idempotent_witness :
    (wbWF wbBraces ∧ ∀ d ∈ [docFeb], docNormalized d = true) ∧
    (run (run wbBraces [docFeb] false).wb [docFeb] false).result.inserted = 0 :=
  ⟨⟨by unfold wbWF; decide, by decide⟩,
   claim_C7_idempotent wbBraces [docFeb] (by unfold wbWF; decide) (by decide)⟩

/-! ## C10 — simulation-mode counters -/

/-- C10: in simulation mode the returned inserted and warnings counts are
exactly zero for every input, while the errors count equals the errors
count of the corresponding normal run (both count exactly the
per-document parse/validation failures). -/
theorem claim_C10_dry_counters (wb0 : Workbook) (docs : List Doc) :
    (run wb0 docs true).result.inserted = 0 ∧
    (run wb0 docs true).result.warnings = 0 ∧
    (run wb0 docs true).result.errors = (run wb0 docs false).result.errors := by
  rw [run_result_def, run_result_def]
  rcases foldl_dry_counters docs (initState wb0) with ⟨hi, hw⟩
  have hi0 : (List.foldl (processDoc true) (initState wb0) docs).inserted = 0 := by
    rw [hi]; rfl
  have hw0 : (List.foldl (processDoc true) (initState wb0) docs).warnings = 0 := by
    rw [hw]; rfl
  refine ⟨?_, ?_, ?_⟩
  · simpa [runFoldState] using hi0
  · simpa [runFoldState] using hw0
  · simp only [runFoldState]
    rw [foldl_errors, foldl_errors]

end MaquiPrime
